import Mathlib

/-!
Verification of the `checkin` seating/roster core (`src/core/table.rs`,
`src/core/attendance.rs`).

The Rust domain layer is shallowly embedded:
* `u32` arithmetic is modelled on `Nat` with explicit wraparound modulo
  `2 ^ 32` (release-build semantics) at every operation the source performs
  on `u32` values, and `saturating_add` / `saturating_sub` as the
  corresponding clamped operations;
* `HashMap<Position, _>` is modelled as an association list together with
  the key-uniqueness invariant the Rust type enforces; map equality is
  stated extensionally (lookup equality), matching `HashMap` semantics;
* fallible operations return the same `(value, flag)` / `Result` shapes as
  the source.
-/

set_option maxRecDepth 8000

namespace Checkin

/-- Modulus of Rust `u32` arithmetic: `2 ^ 32`. -/
def U32M : Nat := 4294967296

/-- Zero-based table coordinate (Rust `Position { x: u32, y: u32 }`). -/
structure Position where
  x : Nat
  y : Nat
deriving DecidableEq, Repr

/-- Data rendered inside a cell (Rust `enum Subject`).  `occupied` models the
Rust constructor `Subject::Some`. -/
inductive Subject where
  | transparent : Subject
  | block : String → Subject
  | occupied : String → Subject
deriving DecidableEq, Repr

/-- Rust `Subject::is_transparent`. -/
def Subject.is_transparent : Subject → Bool
  | .transparent => true
  | _ => false

/-- Rust `Subject::is_blocked`. -/
def Subject.is_blocked : Subject → Bool
  | .block _ => true
  | _ => false

/-- Rust `Subject::is_inert`. -/
def Subject.is_inert (s : Subject) : Bool :=
  s.is_transparent || s.is_blocked

/-- Canonical domain kind for each table cell (Rust `enum CellKind`). -/
inductive CellKind where
  | active : CellKind
  | blocked : CellKind
  | transparent : CellKind
deriving DecidableEq, Repr

/-- First-match lookup in an association list; models `HashMap::get` (the
Rust map never holds two bindings of one key). -/
def alookup {α : Type} : List (Position × α) → Position → Option α
  | [], _ => none
  | (q, v) :: rest, p => if p = q then some v else alookup rest p

/-- Drop every binding of a key; helper realising the overwrite part of
`HashMap::insert`. -/
def aerase {α : Type} : List (Position × α) → Position → List (Position × α)
  | [], _ => []
  | (q, v) :: rest, p => if q = p then aerase rest p else (q, v) :: aerase rest p

/-- Insert-or-replace one binding; models `HashMap::insert`. -/
def ainsert {α : Type} (l : List (Position × α)) (p : Position) (v : α) :
    List (Position × α) :=
  (p, v) :: aerase l p

/-- Key uniqueness, the structural invariant every Rust `HashMap` has. -/
def KeysNodup {α : Type} (l : List (Position × α)) : Prop :=
  (l.map Prod.fst).Nodup

/-- A rectangular table layout (Rust `struct Table`).  `subjects` only stores
explicitly assigned positions; any missing position is an empty active
seat. -/
structure Table where
  row_count : Nat
  column_count : Nat
  subjects : List (Position × Subject)
deriving DecidableEq, Repr

/-- Rust `Table::new`: normalizes the input vector into a position-indexed
map, discarding out-of-bounds entries; duplicate coordinates keep the last
value (`HashMap::insert` overwrite). -/
def Table.new (row_count column_count : Nat) (subjects : List (Position × Subject)) :
    Table :=
  { row_count := row_count
    column_count := column_count
    subjects := subjects.foldl
      (fun m e =>
        if e.1.x < column_count ∧ e.1.y < row_count then ainsert m e.1 e.2 else m)
      [] }

/-- Rust `Table::total_cells`: the `u32` product `row_count * column_count`
(wraps modulo `2 ^ 32`). -/
def Table.total_cells (t : Table) : Nat :=
  (t.row_count * t.column_count) % U32M

/-- Rust `Table::contains`. -/
def Table.contains (t : Table) (p : Position) : Bool :=
  decide (p.x < t.column_count ∧ p.y < t.row_count)

/-- Rust `Table::subject_at`. -/
def Table.subject_at (t : Table) (p : Position) : Option Subject :=
  alookup t.subjects p

/-- Rust `char::is_whitespace`: membership in the Unicode `White_Space`
set (U+0009..U+000D, U+0020, U+0085, U+00A0, U+1680, U+2000..U+200A,
U+2028, U+2029, U+202F, U+205F, U+3000). -/
def isRustWhitespace (c : Char) : Bool :=
  decide (c.toNat = 0x9 ∨ c.toNat = 0xA ∨ c.toNat = 0xB ∨ c.toNat = 0xC ∨
    c.toNat = 0xD ∨ c.toNat = 0x20 ∨ c.toNat = 0x85 ∨ c.toNat = 0xA0 ∨
    c.toNat = 0x1680 ∨ (0x2000 ≤ c.toNat ∧ c.toNat ≤ 0x200A) ∨
    c.toNat = 0x2028 ∨ c.toNat = 0x2029 ∨ c.toNat = 0x202F ∨
    c.toNat = 0x205F ∨ c.toNat = 0x3000)

/-- Trim of a character list: Unicode `White_Space` characters stripped
from both ends (Rust `str::trim`). -/
def charTrim (l : List Char) : List Char :=
  ((l.dropWhile isRustWhitespace).reverse.dropWhile isRustWhitespace).reverse

/-- Rust `str::trim` on `String`. -/
def strTrim (s : String) : String :=
  ⟨charTrim s.data⟩

/-- Rust `Table::normalize_subject`. -/
def normalize_subject : Option Subject → Option Subject
  | some (.occupied name) =>
      let name := strTrim name
      if name = "" then none else some (.occupied name)
  | some (.block name) => some (.block (strTrim name))
  | some .transparent => some .transparent
  | none => none

/-- Rust `Table::set_subject`. -/
def Table.set_subject (t : Table) (p : Position) (s : Option Subject) :
    Table × Bool :=
  if t.contains p = false then (t, false)
  else
    let normalized := normalize_subject s
    if alookup t.subjects p = normalized then (t, false)
    else
      match normalized with
      | some sub => ({ t with subjects := ainsert t.subjects p sub }, true)
      | none => ({ t with subjects := aerase t.subjects p }, true)

/-- Rust `Table::cell_kind`. -/
def Table.cell_kind (t : Table) (p : Position) : Option CellKind :=
  if t.contains p = false then none
  else
    some
      (match alookup t.subjects p with
      | some s =>
          if s.is_transparent then CellKind.transparent
          else if s.is_blocked then CellKind.blocked
          else CellKind.active
      | none => CellKind.active)

/-- Rust `Table::is_inert`. -/
def Table.is_inert (t : Table) (p : Position) : Bool :=
  match t.cell_kind p with
  | some .blocked => true
  | some .transparent => true
  | _ => false

/-- Rust `Table::blocked_cells`: count of stored blocked entries, cast to
`u32`. -/
def Table.blocked_cells (t : Table) : Nat :=
  (t.subjects.filter (fun e => e.2.is_blocked)).length % U32M

/-- Rust `Table::transparent_cells`. -/
def Table.transparent_cells (t : Table) : Nat :=
  (t.subjects.filter (fun e => e.2.is_transparent)).length % U32M

/-- Rust `Table::active_cells`:
`total_cells().saturating_sub(blocked_cells() + transparent_cells())`, the
inner `+` being `u32` addition. -/
def Table.active_cells (t : Table) : Nat :=
  t.total_cells - ((t.blocked_cells + t.transparent_cells) % U32M)

/-- Rust `Table::iter_positions`: row-major (y outer ascending, x inner
ascending). -/
def Table.iter_positions (t : Table) : List Position :=
  (List.range t.row_count).flatMap
    (fun y => (List.range t.column_count).map (fun x => ⟨x, y⟩))

/-- Rust `Table::add_row` (`saturating_add(1)` on `u32`). -/
def Table.add_row (t : Table) : Table :=
  { t with row_count := min (t.row_count + 1) (U32M - 1) }

/-- Rust `Table::add_column`. -/
def Table.add_column (t : Table) : Table :=
  { t with column_count := min (t.column_count + 1) (U32M - 1) }

/-- The per-entry transformation `Table::remove_row` applies when rebuilding
the map: entries on the removed row are dropped, higher rows shift down by
one. -/
def row_shift_entry (i : Nat) (e : Position × Subject) : Option (Position × Subject) :=
  if e.1.y = i then none
  else some (⟨e.1.x, if e.1.y > i then e.1.y - 1 else e.1.y⟩, e.2)

/-- Rust `Table::remove_row`.  The source reinserts the surviving entries
into a fresh `HashMap`; the shifted keys are pairwise distinct, so that
rebuild is exactly this entrywise remap of the stored list. -/
def Table.remove_row (t : Table) (row_index : Nat) : Table × Bool :=
  if row_index ≥ t.row_count ∨ t.row_count ≤ 1 then (t, false)
  else
    ({ t with
        subjects := t.subjects.filterMap (row_shift_entry row_index)
        row_count := t.row_count - 1 },
      true)

/-- Column analogue of `row_shift_entry` for `Table::remove_column`. -/
def column_shift_entry (i : Nat) (e : Position × Subject) :
    Option (Position × Subject) :=
  if e.1.x = i then none
  else some (⟨if e.1.x > i then e.1.x - 1 else e.1.x, e.1.y⟩, e.2)

/-- Rust `Table::remove_column`. -/
def Table.remove_column (t : Table) (column_index : Nat) : Table × Bool :=
  if column_index ≥ t.column_count ∨ t.column_count ≤ 1 then (t, false)
  else
    ({ t with
        subjects := t.subjects.filterMap (column_shift_entry column_index)
        column_count := t.column_count - 1 },
      true)

/-- Domain-level check-in result (Rust `enum AttendanceStatus`); the Rust
`Default` is `Unchecked`. -/
inductive AttendanceStatus where
  | checked : AttendanceStatus
  | unchecked : AttendanceStatus
  | marked : AttendanceStatus
deriving DecidableEq, Repr

instance : Inhabited AttendanceStatus := ⟨.unchecked⟩

/-- Aggregated attendance metrics (Rust `struct AttendanceStatistics`, all
fields `u32`). -/
structure AttendanceStatistics where
  checked : Nat
  unchecked : Nat
  marked : Nat
  active_total : Nat
  blocked_total : Nat
deriving DecidableEq, Repr

/-- Rust `AttendanceStatistics::completed_count` (`u32` addition). -/
def AttendanceStatistics.completed_count (s : AttendanceStatistics) : Nat :=
  (s.checked + s.marked) % U32M

/-- Rust `AttendanceStatistics::completed_ratio_percent`:
`0` when `active_total == 0`, else `(completed_count() * 100) / active_total`
in `u32` arithmetic. -/
def AttendanceStatistics.completed_ratio_percent (s : AttendanceStatistics) : Nat :=
  if s.active_total = 0 then 0
  else (s.completed_count * 100 % U32M) / s.active_total

/-- Mutable attendance statuses keyed by position (Rust
`struct AttendanceBook`); `Default` derives to the empty map. -/
structure AttendanceBook where
  statuses : List (Position × AttendanceStatus)
deriving DecidableEq, Repr

/-- Rust `AttendanceBook::new`: one `Unchecked` entry per non-inert position
of the table (insertions into a fresh `HashMap` over pairwise-distinct
positions). -/
def AttendanceBook.new (t : Table) : AttendanceBook :=
  ⟨t.iter_positions.filterMap
    (fun p => if t.is_inert p then none else some (p, AttendanceStatus.unchecked))⟩

/-- Rust `AttendanceBook::status_at`. -/
def AttendanceBook.status_at (b : AttendanceBook) (p : Position) :
    Option AttendanceStatus :=
  alookup b.statuses p

/-- Phase 2 of `AttendanceBook::reconcile_with_table`: for every non-inert
position, `self.statuses.entry(position).or_default()` inserts `Unchecked`
when the position is untracked. -/
def ensureDefaults (t : Table) (m : List (Position × AttendanceStatus))
    (ps : List Position) : List (Position × AttendanceStatus) :=
  ps.foldl
    (fun m p =>
      if t.is_inert p then m
      else if (alookup m p).isSome then m
      else ainsert m p AttendanceStatus.unchecked)
    m

/-- Rust `AttendanceBook::reconcile_with_table`: retain the entries whose
position is still contained and non-inert, then default-fill every
non-inert position. -/
def AttendanceBook.reconcile_with_table (b : AttendanceBook) (t : Table) :
    AttendanceBook :=
  ⟨ensureDefaults t
    (b.statuses.filter (fun e => t.contains e.1 && !t.is_inert e.1))
    t.iter_positions⟩

/-- Rust `AttendanceBook::update_status`.  Note `entry(position).or_default()`
materializes an `Unchecked` binding for an untracked position before the
comparison with `next_status`. -/
def AttendanceBook.update_status (b : AttendanceBook) (t : Table) (p : Position)
    (next_status : AttendanceStatus) : AttendanceBook × Bool :=
  if t.contains p = false ∨ t.is_inert p = true then (b, false)
  else
    let ensured :=
      if (alookup b.statuses p).isSome then b.statuses
      else ainsert b.statuses p AttendanceStatus.unchecked
    let current := (alookup b.statuses p).getD AttendanceStatus.unchecked
    if current = next_status then (⟨ensured⟩, false)
    else (⟨ainsert ensured p next_status⟩, true)

/-- One step of the tally loop inside `AttendanceBook::statistics`: inert
positions are skipped, the matching `u32` counter is incremented. -/
def tallyStep (b : AttendanceBook) (t : Table) (acc : Nat × Nat × Nat)
    (p : Position) : Nat × Nat × Nat :=
  if t.is_inert p then acc
  else
    match (alookup b.statuses p).getD AttendanceStatus.unchecked with
    | .checked => ((acc.1 + 1) % U32M, acc.2.1, acc.2.2)
    | .unchecked => (acc.1, (acc.2.1 + 1) % U32M, acc.2.2)
    | .marked => (acc.1, acc.2.1, (acc.2.2 + 1) % U32M)

/-- Rust `AttendanceBook::statistics`. -/
def AttendanceBook.statistics (b : AttendanceBook) (t : Table) :
    AttendanceStatistics :=
  let tally := t.iter_positions.foldl (tallyStep b t) (0, 0, 0)
  { checked := tally.1
    unchecked := tally.2.1
    marked := tally.2.2
    active_total := t.active_cells
    blocked_total := t.blocked_cells }

/-- JSON values, the level at which `serde_json` hands data to the derived
decoders.  Numbers are modelled as integers (the schemas only contain
unsigned integers; a fractional literal is rejected by every numeric field
decoder, so it behaves like any other ill-typed value). -/
inductive Json where
  | null : Json
  | bool (b : Bool) : Json
  | num (n : Int) : Json
  | str (s : String) : Json
  | arr (items : List Json) : Json
  | obj (fields : List (String × Json)) : Json

/-- Field access in a JSON object (serde matches fields by name; the
repository's own files never repeat a field, first occurrence wins here). -/
def getField : List (String × Json) → String → Option Json
  | [], _ => none
  | (k, v) :: rest, name => if k = name then some v else getField rest name

/-- serde deserialization of a `u32` field: an integer in `[0, 2^32)`. -/
def decodeU32 : Json → Option Nat
  | .num n => if 0 ≤ n ∧ n < (4294967296 : Int) then some n.toNat else none
  | _ => none

/-- On-disk cell kind (Rust `enum TableConfigCellKind`, snake_case). -/
inductive TableConfigCellKind where
  | active : TableConfigCellKind
  | blocked : TableConfigCellKind
  | transparent : TableConfigCellKind
deriving DecidableEq, Repr

/-- Rust `struct TableConfigSubject`. -/
structure TableConfigSubject where
  x : Nat
  y : Nat
  kind : TableConfigCellKind
  name : Option String
deriving DecidableEq, Repr

/-- Rust `struct TableConfig`. -/
structure TableConfig where
  row_count : Nat
  column_count : Nat
  subjects : List TableConfigSubject
deriving DecidableEq, Repr

/-- Rust `TableConfigSubject::from_subject`. -/
def TableConfigSubject.from_subject (p : Position) : Subject → TableConfigSubject
  | .transparent => ⟨p.x, p.y, .transparent, none⟩
  | .block name => ⟨p.x, p.y, .blocked, some name⟩
  | .occupied name => ⟨p.x, p.y, .active, some name⟩

/-- Rust `TableConfigSubject::into_subject` (`name.unwrap_or_default()`). -/
def TableConfigSubject.into_subject (s : TableConfigSubject) :
    Position × Subject :=
  (⟨s.x, s.y⟩,
    match s.kind with
    | .transparent => Subject.transparent
    | .blocked => Subject.block (s.name.getD "")
    | .active => Subject.occupied (s.name.getD ""))

/-- Rust `TableConfig::from_table`: walk the positions in row-major order and
emit one record per explicitly stored subject. -/
def TableConfig.from_table (t : Table) : TableConfig :=
  { row_count := t.row_count
    column_count := t.column_count
    subjects := t.iter_positions.filterMap
      (fun p => (alookup t.subjects p).map
        (fun s => TableConfigSubject.from_subject p s)) }

/-- Rust `TableConfig::into_table`. -/
def TableConfig.into_table (c : TableConfig) : Table :=
  Table.new c.row_count c.column_count (c.subjects.map TableConfigSubject.into_subject)

/-- serde serialization of `TableConfigCellKind` (snake_case). -/
def encodeKind : TableConfigCellKind → String
  | .active => "active"
  | .blocked => "blocked"
  | .transparent => "transparent"

/-- serde serialization of the `Option<String>` field `name` (`Some` as a
string, `None` as `null`). -/
def encodeName : Option String → Json
  | some n => .str n
  | none => .null

/-- serde serialization of one `TableConfigSubject`. -/
def encodeSubject (s : TableConfigSubject) : Json :=
  .obj
    [("x", .num (Int.ofNat s.x)), ("y", .num (Int.ofNat s.y)),
      ("kind", .str (encodeKind s.kind)), ("name", encodeName s.name)]

/-- serde serialization of a `TableConfig`. -/
def encodeTableConfig (c : TableConfig) : Json :=
  .obj
    [("row_count", .num (Int.ofNat c.row_count)),
      ("column_count", .num (Int.ofNat c.column_count)),
      ("subjects", .arr (c.subjects.map encodeSubject))]

/-- serde deserialization of the `kind` field. -/
def decodeKind : Json → Option TableConfigCellKind
  | .str "active" => some .active
  | .str "blocked" => some .blocked
  | .str "transparent" => some .transparent
  | _ => none

/-- serde deserialization of the `Option<String>` field `name`: a missing
field or `null` is `None`, a string is `Some`, anything else is an error. -/
def decodeName : Option Json → Option (Option String)
  | none => some none
  | some .null => some none
  | some (.str s) => some (some s)
  | _ => none

/-- serde deserialization of one `TableConfigSubject` (unknown fields are
ignored, as serde does by default; every required field must decode,
short-circuiting on the first failure like serde's derived decoder). -/
def decodeSubject : Json → Option TableConfigSubject
  | .obj fields =>
      (getField fields "x").bind fun jx =>
      (decodeU32 jx).bind fun x =>
      (getField fields "y").bind fun jy =>
      (decodeU32 jy).bind fun y =>
      (getField fields "kind").bind fun jk =>
      (decodeKind jk).bind fun kind =>
      (decodeName (getField fields "name")).bind fun name =>
      some ⟨x, y, kind, name⟩
  | _ => none

/-- serde deserialization of a `Vec<TableConfigSubject>`: every element must
decode. -/
def decodeSubjects : List Json → Option (List TableConfigSubject)
  | [] => some []
  | j :: rest =>
      (decodeSubject j).bind fun s =>
      (decodeSubjects rest).bind fun l =>
      some (s :: l)

/-- The `subjects` field must be present and hold an array. -/
def decodeSubjectsField : Option Json → Option (List TableConfigSubject)
  | some (.arr items) => decodeSubjects items
  | _ => none

/-- serde deserialization of the bare `TableConfig` schema. -/
def decodeTableConfig : Json → Option TableConfig
  | .obj fields =>
      (getField fields "row_count").bind fun jr =>
      (decodeU32 jr).bind fun r =>
      (getField fields "column_count").bind fun jc =>
      (decodeU32 jc).bind fun c =>
      (decodeSubjectsField (getField fields "subjects")).bind fun subs =>
      some ⟨r, c, subs⟩
  | _ => none

/-- serde deserialization of the wrapped schema (Rust `struct AppConfigFile`,
a single field `default_table` holding a `TableConfig`). -/
def decodeAppConfigFile : Json → Option TableConfig
  | .obj fields =>
      match getField fields "default_table" with
      | none => none
      | some j => decodeTableConfig j
  | _ => none

/-- Rust `Table::write_config`: always emits the wrapped schema. -/
def Table.write_config (t : Table) : Json :=
  .obj [("default_table", encodeTableConfig (TableConfig.from_table t))]

/-- Rust `Table::load_config` applied to an already-tokenized JSON document:
try the wrapped schema first, fall back to the bare schema, otherwise fail
with a distinguishable error (`io::Error::other` around the serde error). -/
def Table.load_config (j : Json) : Except String Table :=
  match decodeAppConfigFile j with
  | some payload => .ok payload.into_table
  | none =>
    match decodeTableConfig j with
    | some payload => .ok payload.into_table
    | none => .error "configuration matches neither schema"

/-- The grids reachable through the public `Table` operations: construction
(`Table::new`, which `load_config` and `default_table` go through) followed
by any sequence of mutations.  Dimensions passed to `new` are `u32`, hence
below `2 ^ 32`. -/
inductive Reachable : Table → Prop where
  | new : ∀ r c l, r < U32M → c < U32M → Reachable (Table.new r c l)
  | set_subject : ∀ t p s, Reachable t → Reachable (t.set_subject p s).1
  | add_row : ∀ t, Reachable t → Reachable t.add_row
  | add_column : ∀ t, Reachable t → Reachable t.add_column
  | remove_row : ∀ t i, Reachable t → Reachable (t.remove_row i).1
  | remove_column : ∀ t i, Reachable t → Reachable (t.remove_column i).1

/-- Structural well-formedness every Rust-side `Table` value enjoys: the map
has pairwise-distinct keys (`HashMap`), every stored key is in bounds, and
the dimensions fit in `u32`. -/
def Table.WF (t : Table) : Prop :=
  KeysNodup t.subjects ∧
    (∀ e ∈ t.subjects, e.1.x < t.column_count ∧ e.1.y < t.row_count) ∧
    t.row_count < U32M ∧ t.column_count < U32M

theorem alookup_aerase {α : Type} (l : List (Position × α)) (p q : Position) :
    alookup (aerase l p) q = if q = p then none else alookup l q := by
  induction l with
  | nil => simp [aerase, alookup]
  | cons e rest ih =>
    obtain ⟨a, v⟩ := e
    by_cases hap : a = p <;> by_cases hqa : q = a <;>
      simp_all [aerase, alookup]

theorem alookup_ainsert {α : Type} (l : List (Position × α)) (p : Position) (v : α)
    (q : Position) :
    alookup (ainsert l p v) q = if q = p then some v else alookup l q := by
  by_cases h : q = p <;> simp [ainsert, alookup, alookup_aerase, h]

theorem mem_of_mem_aerase {α : Type} {l : List (Position × α)} {p : Position}
    {e : Position × α} (h : e ∈ aerase l p) : e ∈ l := by
  induction l with
  | nil => simpa [aerase] using h
  | cons f rest ih =>
    obtain ⟨a, v⟩ := f
    by_cases hap : a = p <;> simp_all [aerase]
    rcases h with h | h
    · exact Or.inl h
    · exact Or.inr (ih h)

theorem aerase_sublist {α : Type} (l : List (Position × α)) (p : Position) :
    (aerase l p).Sublist l := by
  induction l with
  | nil => simp [aerase]
  | cons f rest ih =>
    obtain ⟨a, v⟩ := f
    by_cases hap : a = p
    · simpa [aerase, hap] using ih.cons (a, v)
    · simpa [aerase, hap] using ih.cons₂ (a, v)

theorem not_mem_keys_aerase {α : Type} (l : List (Position × α)) (p : Position) :
    p ∉ (aerase l p).map Prod.fst := by
  induction l with
  | nil => simp [aerase]
  | cons f rest ih =>
    obtain ⟨a, v⟩ := f
    by_cases hap : a = p
    · simpa [aerase, hap] using ih
    · simp only [aerase, if_neg hap, List.map_cons, List.mem_cons]
      push_neg
      exact ⟨fun h => hap h.symm, ih⟩

theorem keysNodup_aerase {α : Type} {l : List (Position × α)} (h : KeysNodup l)
    (p : Position) : KeysNodup (aerase l p) :=
  ((aerase_sublist l p).map Prod.fst).nodup h

theorem keysNodup_ainsert {α : Type} {l : List (Position × α)} (h : KeysNodup l)
    (p : Position) (v : α) : KeysNodup (ainsert l p v) := by
  refine List.nodup_cons.mpr ⟨not_mem_keys_aerase l p, keysNodup_aerase h p⟩

theorem alookup_eq_none_iff {α : Type} (l : List (Position × α)) (p : Position) :
    alookup l p = none ↔ p ∉ l.map Prod.fst := by
  induction l with
  | nil => simp [alookup]
  | cons e rest ih =>
    obtain ⟨a, v⟩ := e
    by_cases h : p = a
    · simp [alookup, h]
    · simp only [alookup, if_neg h, List.map_cons, List.mem_cons, ih]
      constructor
      · intro hm hc
        rcases hc with hc | hc
        · exact h hc
        · exact hm hc
      · intro hm hx
        exact hm (Or.inr hx)

theorem mem_of_alookup_eq_some {α : Type} {l : List (Position × α)} {p : Position}
    {v : α} (h : alookup l p = some v) : (p, v) ∈ l := by
  induction l with
  | nil => simp [alookup] at h
  | cons e rest ih =>
    obtain ⟨a, w⟩ := e
    by_cases hpa : p = a
    · subst hpa
      simp [alookup] at h
      simp [h]
    · simp [alookup, hpa] at h
      exact List.mem_cons_of_mem _ (ih h)

theorem alookup_eq_some_of_mem {α : Type} {l : List (Position × α)}
    (hn : KeysNodup l) {p : Position} {v : α} (h : (p, v) ∈ l) :
    alookup l p = some v := by
  induction l with
  | nil => simp at h
  | cons e rest ih =>
    obtain ⟨a, w⟩ := e
    have hn' : KeysNodup rest := (List.nodup_cons.mp hn).2
    rcases List.mem_cons.mp h with heq | hmem
    · cases heq
      simp [alookup]
    · have hpa : p ≠ a := by
        intro he
        refine (List.nodup_cons.mp hn).1 ?_
        rw [he] at hmem
        exact List.mem_map.mpr ⟨(a, v), hmem, rfl⟩
      simp only [alookup, if_neg hpa]
      exact ih hn' hmem

theorem mem_iter_positions (t : Table) (p : Position) :
    p ∈ t.iter_positions ↔ p.x < t.column_count ∧ p.y < t.row_count := by
  obtain ⟨px, py⟩ := p
  simp only [Table.iter_positions, List.mem_flatMap, List.mem_map, List.mem_range,
    Position.mk.injEq]
  constructor
  · rintro ⟨y, hy, x, hx, rfl, rfl⟩
    exact ⟨hx, hy⟩
  · rintro ⟨hx, hy⟩
    exact ⟨py, hy, px, hx, rfl, rfl⟩

theorem nodup_iter_positions (t : Table) : t.iter_positions.Nodup := by
  rw [Table.iter_positions, List.nodup_flatMap]
  constructor
  · intro y hy
    refine List.Nodup.map ?_ (List.nodup_range _)
    intro a b hab
    exact congrArg Position.x hab
  · rw [List.pairwise_iff_forall_sublist]
    rintro y1 y2 hsub
    have hne : y1 ≠ y2 := by
      have := hsub.nodup (List.nodup_range _)
      simpa using this
    intro p hp1 hp2
    simp only [List.mem_map, List.mem_range] at hp1 hp2
    obtain ⟨x1, _, h1⟩ := hp1
    obtain ⟨x2, _, h2⟩ := hp2
    exact hne (congrArg Position.y (h1.trans h2.symm))

theorem length_iter_positions (t : Table) :
    t.iter_positions.length = t.row_count * t.column_count := by
  rw [Table.iter_positions, List.length_flatMap]
  have h : ∀ y : Nat,
      ((List.range t.column_count).map (fun x => (⟨x, y⟩ : Position))).length
        = t.column_count := by
    intro y
    simp
  calc ((List.range t.row_count).map
          (fun y => ((List.range t.column_count).map
            (fun x => (⟨x, y⟩ : Position))).length)).sum
      = ((List.range t.row_count).map (fun _ => t.column_count)).sum := by
        simp
    _ = t.row_count * t.column_count := by
        rw [List.map_const', List.sum_replicate, smul_eq_mul, List.length_range]

theorem nodup_subset_length_le {α : Type} [DecidableEq α] {l l' : List α}
    (hn : l.Nodup) (hs : ∀ a ∈ l, a ∈ l') : l.length ≤ l'.length := by
  induction l generalizing l' with
  | nil => simp
  | cons a t ih =>
    have ha : a ∈ l' := hs a (List.mem_cons_self a t)
    have hlen : (l'.erase a).length = l'.length - 1 := List.length_erase_of_mem ha
    have h1 : t.length ≤ (l'.erase a).length := by
      refine ih (List.Nodup.of_cons hn) ?_
      intro x hx
      have hxa : x ≠ a := by
        intro he
        subst he
        exact (List.nodup_cons.mp hn).1 hx
      exact (List.mem_erase_of_ne hxa).mpr (hs x (List.mem_cons_of_mem _ hx))
    have hpos : 0 < l'.length := List.length_pos.mpr (List.ne_nil_of_mem ha)
    simp only [List.length_cons]
    omega

theorem length_eq_of_nodup_mem_iff {α : Type} [DecidableEq α] {l l' : List α}
    (hn : l.Nodup) (hn' : l'.Nodup) (h : ∀ a, a ∈ l ↔ a ∈ l') :
    l.length = l'.length :=
  le_antisymm (nodup_subset_length_le hn fun a ha => (h a).mp ha)
    (nodup_subset_length_le hn' fun a ha => (h a).mpr ha)

theorem length_filter_mem {α : Type} [DecidableEq α] {ps S : List α}
    (hps : ps.Nodup) (hS : S.Nodup) (hsub : ∀ a ∈ S, a ∈ ps) :
    (ps.filter (fun a => decide (a ∈ S))).length = S.length := by
  refine length_eq_of_nodup_mem_iff (hps.filter _) hS ?_
  intro a
  simp only [List.mem_filter, decide_eq_true_eq]
  exact ⟨fun h => h.2, fun h => ⟨hsub a h, h⟩⟩

theorem length_filter_neg {α : Type} (q : α → Bool) (l : List α) :
    (l.filter (fun a => !q a)).length = l.length - (l.filter q).length := by
  induction l with
  | nil => simp
  | cons a t ih =>
    have hle := List.length_filter_le q t
    by_cases h : q a <;> simp [h, ih] <;> omega

theorem length_filter_or {α : Type} {p q : α → Bool} (l : List α)
    (h : ∀ a ∈ l, ¬(p a = true ∧ q a = true)) :
    (l.filter p).length + (l.filter q).length
      = (l.filter (fun a => p a || q a)).length := by
  induction l with
  | nil => simp
  | cons a t ih =>
    have ht : ∀ x ∈ t, ¬(p x = true ∧ q x = true) := fun x hx =>
      h x (List.mem_cons_of_mem _ hx)
    have ha := h a (List.mem_cons_self a t)
    have hih := ih ht
    by_cases hp : p a <;> by_cases hq : q a
    · exact absurd ⟨hp, hq⟩ ha
    · simp only [List.filter_cons, hp, hq, Bool.true_or, if_true, if_false,
        List.length_cons, Bool.false_eq_true]
      omega
    · simp only [List.filter_cons, hp, hq, Bool.or_true, if_true, if_false,
        List.length_cons, Bool.false_eq_true]
      omega
    · simp only [List.filter_cons, hp, hq, Bool.or_self, if_false,
        Bool.false_eq_true]
      omega

theorem row_shift_key_eq (i x y px py : Nat) (hpy : py ≠ i) :
    ((⟨x, y⟩ : Position) = ⟨px, if py > i then py - 1 else py⟩)
      ↔ ((⟨x, if y < i then y else y + 1⟩ : Position) = ⟨px, py⟩) := by
  simp only [Position.mk.injEq]
  by_cases hgt : i < py <;> by_cases hlt : y < i <;>
    simp only [hgt, hlt, gt_iff_lt, if_true, if_false, ite_true, ite_false] <;>
    (constructor <;> rintro ⟨h1, h2⟩ <;> exact ⟨h1, by omega⟩)

theorem alookup_filterMap_row (l : List (Position × Subject)) (i x y : Nat) :
    alookup (l.filterMap (row_shift_entry i)) ⟨x, y⟩
      = alookup l ⟨x, if y < i then y else y + 1⟩ := by
  induction l with
  | nil => simp [alookup]
  | cons e rest ih =>
    obtain ⟨⟨px, py⟩, s⟩ := e
    by_cases hpy : py = i
    · have hf : row_shift_entry i (⟨px, py⟩, s) = none := by
        simp [row_shift_entry, hpy]
      have hne : ¬((⟨x, if y < i then y else y + 1⟩ : Position) = ⟨px, py⟩) := by
        intro hc
        injection hc with h1 h2
        by_cases hlt : y < i <;> simp only [hlt, ite_true, ite_false] at h2 <;> omega
      rw [List.filterMap_cons, hf, ih, alookup, if_neg hne]
    · have hf : row_shift_entry i (⟨px, py⟩, s)
          = some (⟨px, if py > i then py - 1 else py⟩, s) := by
        simp [row_shift_entry, hpy]
      rw [List.filterMap_cons, hf, alookup, alookup]
      simp only [row_shift_key_eq i x y px py hpy]
      by_cases hm : (⟨x, if y < i then y else y + 1⟩ : Position) = ⟨px, py⟩ <;>
        simp [hm, ih]

theorem column_shift_key_eq (i x y px py : Nat) (hpx : px ≠ i) :
    ((⟨x, y⟩ : Position) = ⟨if px > i then px - 1 else px, py⟩)
      ↔ ((⟨if x < i then x else x + 1, y⟩ : Position) = ⟨px, py⟩) := by
  simp only [Position.mk.injEq]
  by_cases hgt : i < px <;> by_cases hlt : x < i <;>
    simp only [hgt, hlt, gt_iff_lt, if_true, if_false, ite_true, ite_false] <;>
    (constructor <;> rintro ⟨h1, h2⟩ <;> exact ⟨by omega, h2⟩)

theorem alookup_filterMap_column (l : List (Position × Subject)) (i x y : Nat) :
    alookup (l.filterMap (column_shift_entry i)) ⟨x, y⟩
      = alookup l ⟨if x < i then x else x + 1, y⟩ := by
  induction l with
  | nil => simp [alookup]
  | cons e rest ih =>
    obtain ⟨⟨px, py⟩, s⟩ := e
    by_cases hpx : px = i
    · have hf : column_shift_entry i (⟨px, py⟩, s) = none := by
        simp [column_shift_entry, hpx]
      have hne : ¬((⟨if x < i then x else x + 1, y⟩ : Position) = ⟨px, py⟩) := by
        intro hc
        injection hc with h1 h2
        by_cases hlt : x < i <;> simp only [hlt, ite_true, ite_false] at h1 <;> omega
      rw [List.filterMap_cons, hf, ih, alookup, if_neg hne]
    · have hf : column_shift_entry i (⟨px, py⟩, s)
          = some (⟨if px > i then px - 1 else px, py⟩, s) := by
        simp [column_shift_entry, hpx]
      rw [List.filterMap_cons, hf, alookup, alookup]
      simp only [column_shift_key_eq i x y px py hpx]
      by_cases hm : (⟨if x < i then x else x + 1, y⟩ : Position) = ⟨px, py⟩ <;>
        simp [hm, ih]

/-- C1: when `remove_row(i)` succeeds, the resulting sparse map is exactly
the old map with row `i` dropped and every higher row shifted down by one:
a lookup at `(x, y)` reads the old `(x, y)` for `y < i` and the old
`(x, y + 1)` otherwise (so old entries with `y = i` appear nowhere, lower
entries keep their coordinates, higher entries have `y` decreased by exactly
one, and `x` and the stored contents are untouched), and `row_count` drops
by one while `column_count` is unchanged; symmetrically for
`remove_column(i)` on the `x` axis. -/
theorem remove_row_column_shift_correct (t : Table) (i : Nat) :
    ((t.remove_row i).2 = true →
      (t.remove_row i).1.row_count = t.row_count - 1 ∧
      (t.remove_row i).1.column_count = t.column_count ∧
      ∀ x y : Nat,
        alookup (t.remove_row i).1.subjects ⟨x, y⟩ =
          if y < i then alookup t.subjects ⟨x, y⟩
          else alookup t.subjects ⟨x, y + 1⟩) ∧
    ((t.remove_column i).2 = true →
      (t.remove_column i).1.column_count = t.column_count - 1 ∧
      (t.remove_column i).1.row_count = t.row_count ∧
      ∀ x y : Nat,
        alookup (t.remove_column i).1.subjects ⟨x, y⟩ =
          if x < i then alookup t.subjects ⟨x, y⟩
          else alookup t.subjects ⟨x + 1, y⟩) := by
  constructor
  · intro hs
    rw [Table.remove_row] at hs ⊢
    by_cases hg : i ≥ t.row_count ∨ t.row_count ≤ 1
    · rw [if_pos hg] at hs
      simp at hs
    · rw [if_neg hg] at hs ⊢
      refine ⟨rfl, rfl, ?_⟩
      intro x y
      have h := alookup_filterMap_row t.subjects i x y
      by_cases hlt : y < i <;>
        simp only [hlt, ite_true, ite_false] at h ⊢ <;> exact h
  · intro hs
    rw [Table.remove_column] at hs ⊢
    by_cases hg : i ≥ t.column_count ∨ t.column_count ≤ 1
    · rw [if_pos hg] at hs
      simp at hs
    · rw [if_neg hg] at hs ⊢
      refine ⟨rfl, rfl, ?_⟩
      intro x y
      have h := alookup_filterMap_column t.subjects i x y
      by_cases hlt : x < i <;>
        simp only [hlt, ite_true, ite_false] at h ⊢ <;> exact h

/-- Concrete instance of `remove_row_column_shift_correct`: removing row 1
of a 3-row concrete grid succeeds, leaves row 0 in place, and moves the
entry of row 2 to row 1. -/
theorem remove_row_column_shift_correct_witness :
    ((Table.new 3 1 [(⟨0, 0⟩, Subject.occupied "a"), (⟨0, 1⟩, Subject.occupied "b"),
        (⟨0, 2⟩, Subject.occupied "c")]).remove_row 1).2 = true ∧
    ((Table.new 3 1 [(⟨0, 0⟩, Subject.occupied "a"), (⟨0, 1⟩, Subject.occupied "b"),
        (⟨0, 2⟩, Subject.occupied "c")]).remove_row 1).1.row_count = 2 ∧
    alookup ((Table.new 3 1 [(⟨0, 0⟩, Subject.occupied "a"),
        (⟨0, 1⟩, Subject.occupied "b"),
        (⟨0, 2⟩, Subject.occupied "c")]).remove_row 1).1.subjects ⟨0, 1⟩ =
      some (Subject.occupied "c") := by
  have h := (remove_row_column_shift_correct
    (Table.new 3 1 [(⟨0, 0⟩, Subject.occupied "a"), (⟨0, 1⟩, Subject.occupied "b"),
      (⟨0, 2⟩, Subject.occupied "c")]) 1).1 (by decide)
  exact ⟨by decide, h.1.trans (by decide), (h.2.2 0 1).trans (by decide)⟩

/-- C7: `remove_row(i)` / `remove_column(i)` returns `false` and leaves the
grid completely unchanged when the index is out of range or when the axis
has size 1 (so in particular removing any row from a 1-row grid is
refused). -/
theorem remove_refused_leaves_grid_unchanged (t : Table) (i : Nat) :
    ((i ≥ t.row_count ∨ t.row_count = 1) → t.remove_row i = (t, false)) ∧
    ((i ≥ t.column_count ∨ t.column_count = 1) → t.remove_column i = (t, false)) := by
  constructor
  · intro h
    rw [Table.remove_row, if_pos]
    rcases h with h | h
    · exact Or.inl h
    · exact Or.inr (by omega)
  · intro h
    rw [Table.remove_column, if_pos]
    rcases h with h | h
    · exact Or.inl h
    · exact Or.inr (by omega)

/-- Concrete instance of `remove_refused_leaves_grid_unchanged`: removing
row 0 of a 1-row grid is refused without mutating the grid, and removing
column 5 of a 3-column grid is refused. -/
theorem remove_refused_leaves_grid_unchanged_witness :
    (Table.new 1 3 []).remove_row 0 = (Table.new 1 3 [], false) ∧
    (Table.new 1 3 []).remove_column 5 = (Table.new 1 3 [], false) :=
  ⟨(remove_refused_leaves_grid_unchanged (Table.new 1 3 []) 0).1 (Or.inr (by decide)),
    (remove_refused_leaves_grid_unchanged (Table.new 1 3 []) 5).2 (Or.inl (by decide))⟩

theorem alookup_filter_key {α : Type} (P : Position → Bool)
    (l : List (Position × α)) (q : Position) :
    alookup (l.filter (fun e => P e.1)) q = if P q then alookup l q else none := by
  induction l with
  | nil => simp [alookup]
  | cons e rest ih =>
    obtain ⟨a, v⟩ := e
    by_cases hq : q = a
    · subst hq
      by_cases hp : P q <;> simp [List.filter_cons, hp, alookup, ih]
    · by_cases hp : P a <;> simp [List.filter_cons, hp, alookup, hq, ih]

theorem alookup_ensureDefaults (t : Table) (m : List (Position × AttendanceStatus))
    (ps : List Position) (q : Position) :
    alookup (ensureDefaults t m ps) q =
      if (alookup m q).isNone ∧ q ∈ ps ∧ t.is_inert q = false
      then some AttendanceStatus.unchecked else alookup m q := by
  induction ps generalizing m with
  | nil => simp [ensureDefaults]
  | cons p rest ih =>
    rw [show ensureDefaults t m (p :: rest)
        = ensureDefaults t
            (if t.is_inert p then m
            else if (alookup m p).isSome then m
            else ainsert m p AttendanceStatus.unchecked) rest from rfl]
    rw [ih]
    by_cases hq : q = p
    · subst hq
      by_cases hin : t.is_inert q
      · simp [hin]
      · cases hm : alookup m q with
        | none => simp [hin, hm, alookup_ainsert]
        | some v => simp [hin, hm]
    · have hmq : alookup
          (if t.is_inert p then m
          else if (alookup m p).isSome then m
          else ainsert m p AttendanceStatus.unchecked) q = alookup m q := by
        by_cases hin : t.is_inert p
        · simp [hin]
        · cases hm : alookup m p with
          | none => simp [hin, hm, alookup_ainsert, hq]
          | some v => simp [hin, hm]
      rw [hmq]
      simp [List.mem_cons, hq]

theorem status_at_reconcile (b : AttendanceBook) (t : Table) (q : Position) :
    (b.reconcile_with_table t).status_at q =
      if t.contains q = true ∧ t.is_inert q = false
      then some ((b.status_at q).getD AttendanceStatus.unchecked) else none := by
  rw [AttendanceBook.reconcile_with_table, AttendanceBook.status_at]
  rw [show (⟨ensureDefaults t
      (b.statuses.filter (fun e => t.contains e.1 && !t.is_inert e.1))
      t.iter_positions⟩ : AttendanceBook).statuses
    = ensureDefaults t
      (b.statuses.filter (fun e => t.contains e.1 && !t.is_inert e.1))
      t.iter_positions from rfl]
  rw [alookup_ensureDefaults,
    alookup_filter_key (fun p => t.contains p && !t.is_inert p)]
  by_cases hc : t.contains q = true
  · by_cases hin : t.is_inert q
    · simp [hc, hin]
    · have hmem : q ∈ t.iter_positions := by
        rw [mem_iter_positions]
        rw [Table.contains] at hc
        exact of_decide_eq_true hc
      cases hb : alookup b.statuses q with
      | none =>
        simp [hc, hin, hb, hmem, AttendanceBook.status_at]
      | some v =>
        simp [hc, hin, hb, hmem, AttendanceBook.status_at]
  · have hnm : q ∉ t.iter_positions := by
      rw [mem_iter_positions]
      rw [Table.contains] at hc
      intro hmem
      exact hc (decide_eq_true hmem)
    simp [hc, hnm, Bool.false_eq_true]

/-- C2: reconciliation is idempotent — reconciling twice against the same
grid yields the same tracked-status map (stated extensionally, i.e. as
`HashMap` equality) — and reconciling never changes the status value of an
entry whose position is still in bounds and `Active`. -/
theorem reconcile_idempotent_and_preserving (t : Table) (b : AttendanceBook) :
    (∀ q, ((b.reconcile_with_table t).reconcile_with_table t).status_at q
        = (b.reconcile_with_table t).status_at q) ∧
    (∀ q s, t.contains q = true → t.is_inert q = false →
      b.status_at q = some s →
      (b.reconcile_with_table t).status_at q = some s) := by
  constructor
  · intro q
    rw [status_at_reconcile, status_at_reconcile]
    by_cases h : t.contains q = true ∧ t.is_inert q = false
    · rw [if_pos h, if_pos h]
      simp
    · rw [if_neg h, if_neg h]
  · intro q s h1 h2 h3
    rw [status_at_reconcile, if_pos ⟨h1, h2⟩, h3]
    rfl

/-- Concrete instance of `reconcile_idempotent_and_preserving` on a 1×2 grid
whose book tracks `(0,0) ↦ Checked`: the double reconcile agrees with the
single one at `(1,0)`, and the `Checked` status at `(0,0)` survives. -/
theorem reconcile_idempotent_and_preserving_witness :
    (((AttendanceBook.mk [(⟨0, 0⟩, AttendanceStatus.checked)]).reconcile_with_table
        (Table.new 1 2 [])).reconcile_with_table (Table.new 1 2 [])).status_at ⟨1, 0⟩
      = ((AttendanceBook.mk [(⟨0, 0⟩, AttendanceStatus.checked)]).reconcile_with_table
        (Table.new 1 2 [])).status_at ⟨1, 0⟩ ∧
    ((AttendanceBook.mk [(⟨0, 0⟩, AttendanceStatus.checked)]).reconcile_with_table
        (Table.new 1 2 [])).status_at ⟨0, 0⟩ = some AttendanceStatus.checked := by
  have h := reconcile_idempotent_and_preserving (Table.new 1 2 [])
    (AttendanceBook.mk [(⟨0, 0⟩, AttendanceStatus.checked)])
  exact ⟨h.1 ⟨1, 0⟩,
    h.2 ⟨0, 0⟩ AttendanceStatus.checked (by decide) (by decide) (by decide)⟩

/-- C5 counterexample: on the 1×1 grid with an untracked active position
`(0,0)` and an empty book, `update_status((0,0), Unchecked)` returns `false`
yet mutates the book — the observable status of `(0,0)` changes from `none`
to `some Unchecked` (because `entry(position).or_default()` materializes a
default binding before the equality check), so "returns `false` with no
mutation when the new status equals the current status" and "returns `true`
exactly when a real change occurred" both fail at this input. -/
theorem update_status_claim_counterexample :
    ((AttendanceBook.mk []).update_status (Table.new 1 1 [])
        ⟨0, 0⟩ AttendanceStatus.unchecked).2 = false ∧
    (AttendanceBook.mk []).status_at ⟨0, 0⟩ = none ∧
    ((AttendanceBook.mk []).update_status (Table.new 1 1 [])
        ⟨0, 0⟩ AttendanceStatus.unchecked).1.status_at ⟨0, 0⟩
      = some AttendanceStatus.unchecked := by
  refine ⟨by decide, by decide, by decide⟩

/-- C5 (amended): `update_status` returns `false` and leaves the book
untouched when the position is out of bounds or not `Active`; for an
in-bounds `Active` position it returns `true` exactly when the *effective*
status (a tracked value, defaulting to `Unchecked` when untracked) of that
position changes, it never changes the effective status of any other
position (and leaves other positions' raw bindings untouched), and it
leaves the effective map entirely unchanged when the new status equals the
current effective status — although in that case it may materialize an
explicit default `Unchecked` binding for the target position. -/
theorem update_status_effective_change (t : Table) (b : AttendanceBook)
    (p : Position) (s : AttendanceStatus) :
    (t.contains p = false ∨ t.is_inert p = true →
      b.update_status t p s = (b, false)) ∧
    (t.contains p = true → t.is_inert p = false →
      ((b.update_status t p s).2 = true ↔
        (b.status_at p).getD AttendanceStatus.unchecked ≠ s) ∧
      (∀ q, ((b.update_status t p s).1.status_at q).getD AttendanceStatus.unchecked =
        if q = p then s else (b.status_at q).getD AttendanceStatus.unchecked) ∧
      (∀ q, q ≠ p →
        (b.update_status t p s).1.status_at q = b.status_at q)) := by
  constructor
  · intro h
    rw [AttendanceBook.update_status, if_pos h]
  · intro hc hi
    have hg : ¬(t.contains p = false ∨ t.is_inert p = true) := by
      simp [hc, hi]
    cases hb : alookup b.statuses p with
    | none =>
      by_cases hs : s = AttendanceStatus.unchecked
      · subst hs
        have hres : b.update_status t p AttendanceStatus.unchecked
            = (⟨ainsert b.statuses p AttendanceStatus.unchecked⟩, false) := by
          simp [AttendanceBook.update_status, hg, hb]
        rw [hres]
        refine ⟨by simp [AttendanceBook.status_at, hb], ?_, ?_⟩
        · intro q
          by_cases hq : q = p <;>
            simp [AttendanceBook.status_at, alookup_ainsert, hq, hb]
        · intro q hq
          simp [AttendanceBook.status_at, alookup_ainsert, hq]
      · have hs' : AttendanceStatus.unchecked ≠ s := fun h => hs h.symm
        have hres : b.update_status t p s
            = (⟨ainsert (ainsert b.statuses p AttendanceStatus.unchecked) p s⟩, true) := by
          simp [AttendanceBook.update_status, hg, hb, hs']
        rw [hres]
        refine ⟨by simp [AttendanceBook.status_at, hb, hs'], ?_, ?_⟩
        · intro q
          by_cases hq : q = p <;>
            simp [AttendanceBook.status_at, alookup_ainsert, hq, hb]
        · intro q hq
          simp [AttendanceBook.status_at, alookup_ainsert, hq]
    | some v =>
      by_cases hs : v = s
      · subst hs
        have hres : b.update_status t p v = (⟨b.statuses⟩, false) := by
          simp [AttendanceBook.update_status, hg, hb]
        rw [hres]
        refine ⟨by simp [AttendanceBook.status_at, hb], ?_, ?_⟩
        · intro q
          by_cases hq : q = p <;> simp [AttendanceBook.status_at, hq, hb]
        · intro q hq
          simp [AttendanceBook.status_at]
      · have hres : b.update_status t p s = (⟨ainsert b.statuses p s⟩, true) := by
          simp [AttendanceBook.update_status, hg, hb, hs]
        rw [hres]
        refine ⟨by simp [AttendanceBook.status_at, hb, hs], ?_, ?_⟩
        · intro q
          by_cases hq : q = p <;>
            simp [AttendanceBook.status_at, alookup_ainsert, hq, hb]
        · intro q hq
          simp [AttendanceBook.status_at, alookup_ainsert, hq]

/-- Concrete instance of `update_status_effective_change`: checking the
empty seat `(0,0)` of a 1×2 grid from an empty book returns `true` and the
effective status becomes `Checked`; an out-of-bounds update is a pure
no-op. -/
theorem update_status_effective_change_witness :
    ((AttendanceBook.mk []).update_status (Table.new 1 2 [])
        ⟨0, 0⟩ AttendanceStatus.checked).2 = true ∧
    (((AttendanceBook.mk []).update_status (Table.new 1 2 [])
        ⟨0, 0⟩ AttendanceStatus.checked).1.status_at ⟨0, 0⟩).getD
        AttendanceStatus.unchecked = AttendanceStatus.checked ∧
    (AttendanceBook.mk []).update_status (Table.new 1 2 [])
        ⟨7, 7⟩ AttendanceStatus.checked = (AttendanceBook.mk [], false) := by
  have h := (update_status_effective_change (Table.new 1 2 [])
    (AttendanceBook.mk []) ⟨0, 0⟩ AttendanceStatus.checked).2 (by decide) (by decide)
  have h2 := (update_status_effective_change (Table.new 1 2 [])
    (AttendanceBook.mk []) ⟨7, 7⟩ AttendanceStatus.checked).1 (Or.inl (by decide))
  exact ⟨h.1.mpr (by decide), (h.2.1 ⟨0, 0⟩).trans (by decide), h2⟩

theorem mem_ainsert {α : Type} {l : List (Position × α)} {p : Position} {v : α}
    {e : Position × α} (h : e ∈ ainsert l p v) : e = (p, v) ∨ e ∈ l := by
  rcases List.mem_cons.mp h with h | h
  · exact Or.inl h
  · exact Or.inr (mem_of_mem_aerase h)

theorem new_fold_wf (rc cc : Nat) (l : List (Position × Subject)) :
    ∀ acc : List (Position × Subject), KeysNodup acc →
      (∀ e ∈ acc, e.1.x < cc ∧ e.1.y < rc) →
      KeysNodup (l.foldl
        (fun m e => if e.1.x < cc ∧ e.1.y < rc then ainsert m e.1 e.2 else m) acc) ∧
      ∀ e ∈ l.foldl
          (fun m e => if e.1.x < cc ∧ e.1.y < rc then ainsert m e.1 e.2 else m) acc,
        e.1.x < cc ∧ e.1.y < rc := by
  induction l with
  | nil => exact fun acc h1 h2 => ⟨h1, h2⟩
  | cons a rest ih =>
    intro acc h1 h2
    rw [List.foldl_cons]
    by_cases hb : a.1.x < cc ∧ a.1.y < rc
    · rw [if_pos hb]
      refine ih (ainsert acc a.1 a.2) (keysNodup_ainsert h1 _ _) ?_
      intro e he
      rcases mem_ainsert he with he | he
      · rw [he]
        exact hb
      · exact h2 e he
    · rw [if_neg hb]
      exact ih acc h1 h2

theorem wf_new (r c : Nat) (l : List (Position × Subject)) (hr : r < U32M)
    (hc : c < U32M) : (Table.new r c l).WF := by
  have h := new_fold_wf r c l [] (by simp [KeysNodup]) (by simp)
  exact ⟨h.1, h.2, hr, hc⟩

theorem contains_bounds {t : Table} {p : Position} (h : t.contains p = true) :
    p.x < t.column_count ∧ p.y < t.row_count := by
  rw [Table.contains] at h
  exact of_decide_eq_true h

theorem wf_set_subject (t : Table) (p : Position) (s : Option Subject)
    (h : t.WF) : ((t.set_subject p s).1).WF := by
  obtain ⟨hn, hb, hr, hc⟩ := h
  simp only [Table.set_subject]
  by_cases h1 : t.contains p = false
  · simp only [if_pos h1]
    exact ⟨hn, hb, hr, hc⟩
  · have hp : p.x < t.column_count ∧ p.y < t.row_count := by
      refine contains_bounds ?_
      cases hcb : t.contains p
      · exact absurd hcb h1
      · rfl
    simp only [if_neg h1]
    by_cases h2 : alookup t.subjects p = normalize_subject s
    · rw [if_pos h2]
      exact ⟨hn, hb, hr, hc⟩
    · rw [if_neg h2]
      cases hns : normalize_subject s with
      | some sub =>
        simp only [hns]
        refine ⟨keysNodup_ainsert hn p sub, ?_, hr, hc⟩
        intro e he
        rcases mem_ainsert he with he | he
        · rw [he]
          exact hp
        · exact hb e he
      | none =>
        simp only [hns]
        exact ⟨keysNodup_aerase hn p, fun e he => hb e (mem_of_mem_aerase he), hr, hc⟩

theorem wf_add_row (t : Table) (h : t.WF) : t.add_row.WF := by
  obtain ⟨hn, hb, hr, hc⟩ := h
  simp only [U32M] at hr hc
  refine ⟨hn, ?_, ?_, ?_⟩
  · intro e he
    have hbe := hb e he
    refine ⟨hbe.1, ?_⟩
    simp only [Table.add_row, U32M]
    omega
  · simp only [Table.add_row, U32M]
    omega
  · simpa only [Table.add_row, U32M] using hc

theorem wf_add_column (t : Table) (h : t.WF) : t.add_column.WF := by
  obtain ⟨hn, hb, hr, hc⟩ := h
  simp only [U32M] at hr hc
  refine ⟨hn, ?_, ?_, ?_⟩
  · intro e he
    have hbe := hb e he
    refine ⟨?_, hbe.2⟩
    simp only [Table.add_column, U32M]
    omega
  · simpa only [Table.add_column, U32M] using hr
  · simp only [Table.add_column, U32M]
    omega

theorem keysNodup_filterMap_row {l : List (Position × Subject)} (i : Nat)
    (h : KeysNodup l) : KeysNodup (l.filterMap (row_shift_entry i)) := by
  induction l with
  | nil => simp [KeysNodup]
  | cons e rest ih =>
    obtain ⟨⟨px, py⟩, s⟩ := e
    have hn1 : (⟨px, py⟩ : Position) ∉ rest.map Prod.fst := (List.nodup_cons.mp h).1
    have hn2 : KeysNodup rest := (List.nodup_cons.mp h).2
    by_cases hpy : py = i
    · have hf : row_shift_entry i (⟨px, py⟩, s) = none := by
        simp [row_shift_entry, hpy]
      rw [List.filterMap_cons, hf]
      exact ih hn2
    · have hf : row_shift_entry i (⟨px, py⟩, s)
          = some (⟨px, if py > i then py - 1 else py⟩, s) := by
        simp [row_shift_entry, hpy]
      rw [List.filterMap_cons, hf]
      refine List.nodup_cons.mpr ⟨?_, ih hn2⟩
      intro hmem
      have hlk : alookup (rest.filterMap (row_shift_entry i))
          ⟨px, if py > i then py - 1 else py⟩ ≠ none := by
        intro hnone
        exact (alookup_eq_none_iff _ _).mp hnone hmem
      rw [alookup_filterMap_row] at hlk
      have hrest : alookup rest ⟨px, py⟩ = none := (alookup_eq_none_iff _ _).mpr hn1
      have harg : (⟨px, if (if py > i then py - 1 else py) < i
            then if py > i then py - 1 else py
            else (if py > i then py - 1 else py) + 1⟩ : Position) = ⟨px, py⟩ := by
        by_cases hgt : py > i
        · have h2 : ¬(py - 1 < i) := by omega
          rw [if_pos hgt, if_neg h2]
          have h3 : py - 1 + 1 = py := by omega
          rw [h3]
        · have h2 : py < i := by omega
          rw [if_neg hgt, if_pos h2]
      rw [harg, hrest] at hlk
      exact hlk rfl

theorem keysNodup_filterMap_column {l : List (Position × Subject)} (i : Nat)
    (h : KeysNodup l) : KeysNodup (l.filterMap (column_shift_entry i)) := by
  induction l with
  | nil => simp [KeysNodup]
  | cons e rest ih =>
    obtain ⟨⟨px, py⟩, s⟩ := e
    have hn1 : (⟨px, py⟩ : Position) ∉ rest.map Prod.fst := (List.nodup_cons.mp h).1
    have hn2 : KeysNodup rest := (List.nodup_cons.mp h).2
    by_cases hpx : px = i
    · have hf : column_shift_entry i (⟨px, py⟩, s) = none := by
        simp [column_shift_entry, hpx]
      rw [List.filterMap_cons, hf]
      exact ih hn2
    · have hf : column_shift_entry i (⟨px, py⟩, s)
          = some (⟨if px > i then px - 1 else px, py⟩, s) := by
        simp [column_shift_entry, hpx]
      rw [List.filterMap_cons, hf]
      refine List.nodup_cons.mpr ⟨?_, ih hn2⟩
      intro hmem
      have hlk : alookup (rest.filterMap (column_shift_entry i))
          ⟨if px > i then px - 1 else px, py⟩ ≠ none := by
        intro hnone
        exact (alookup_eq_none_iff _ _).mp hnone hmem
      rw [alookup_filterMap_column] at hlk
      have hrest : alookup rest ⟨px, py⟩ = none := (alookup_eq_none_iff _ _).mpr hn1
      have harg : (⟨if (if px > i then px - 1 else px) < i
            then if px > i then px - 1 else px
            else (if px > i then px - 1 else px) + 1, py⟩ : Position) = ⟨px, py⟩ := by
        by_cases hgt : px > i
        · have h2 : ¬(px - 1 < i) := by omega
          rw [if_pos hgt, if_neg h2]
          have h3 : px - 1 + 1 = px := by omega
          rw [h3]
        · have h2 : px < i := by omega
          rw [if_neg hgt, if_pos h2]
      rw [harg, hrest] at hlk
      exact hlk rfl

theorem wf_remove_row (t : Table) (i : Nat) (h : t.WF) : ((t.remove_row i).1).WF := by
  obtain ⟨hn, hb, hr, hc⟩ := h
  rw [Table.remove_row]
  by_cases hg : i ≥ t.row_count ∨ t.row_count ≤ 1
  · rw [if_pos hg]
    exact ⟨hn, hb, hr, hc⟩
  · rw [if_neg hg]
    push_neg at hg
    refine ⟨keysNodup_filterMap_row i hn, ?_, show t.row_count - 1 < U32M by omega, hc⟩
    intro e he
    rw [List.mem_filterMap] at he
    obtain ⟨a, ha, hfa⟩ := he
    obtain ⟨⟨px, py⟩, s⟩ := a
    obtain ⟨hx0, hy0⟩ := hb _ ha
    have hx : px < t.column_count := hx0
    have hy : py < t.row_count := hy0
    rw [row_shift_entry] at hfa
    by_cases hpy : py = i
    · simp [hpy] at hfa
    · simp only [hpy, if_false, Option.some.injEq] at hfa
      subst hfa
      constructor
      · show px < t.column_count
        exact hx
      · show (if py > i then py - 1 else py) < t.row_count - 1
        by_cases hgt : py > i
        · rw [if_pos hgt]
          omega
        · rw [if_neg hgt]
          omega

theorem wf_remove_column (t : Table) (i : Nat) (h : t.WF) :
    ((t.remove_column i).1).WF := by
  obtain ⟨hn, hb, hr, hc⟩ := h
  rw [Table.remove_column]
  by_cases hg : i ≥ t.column_count ∨ t.column_count ≤ 1
  · rw [if_pos hg]
    exact ⟨hn, hb, hr, hc⟩
  · rw [if_neg hg]
    push_neg at hg
    refine ⟨keysNodup_filterMap_column i hn, ?_, hr,
      show t.column_count - 1 < U32M by omega⟩
    intro e he
    rw [List.mem_filterMap] at he
    obtain ⟨a, ha, hfa⟩ := he
    obtain ⟨⟨px, py⟩, s⟩ := a
    obtain ⟨hx0, hy0⟩ := hb _ ha
    have hx : px < t.column_count := hx0
    have hy : py < t.row_count := hy0
    rw [column_shift_entry] at hfa
    by_cases hpx : px = i
    · simp [hpx] at hfa
    · simp only [hpx, if_false, Option.some.injEq] at hfa
      subst hfa
      constructor
      · show (if px > i then px - 1 else px) < t.column_count - 1
        by_cases hgt : px > i
        · rw [if_pos hgt]
          omega
        · rw [if_neg hgt]
          omega
      · show py < t.row_count
        exact hy

theorem reachable_wf {t : Table} (h : Reachable t) : t.WF := by
  induction h with
  | new r c l hr hc => exact wf_new r c l hr hc
  | set_subject t p s _ ih => exact wf_set_subject t p s ih
  | add_row t _ ih => exact wf_add_row t ih
  | add_column t _ ih => exact wf_add_column t ih
  | remove_row t i _ ih => exact wf_remove_row t i ih
  | remove_column t i _ ih => exact wf_remove_column t i ih

theorem subjects_length_le (t : Table) (h : t.WF) :
    t.subjects.length ≤ t.row_count * t.column_count := by
  have h1 : (t.subjects.map Prod.fst).length ≤ t.iter_positions.length := by
    refine nodup_subset_length_le h.1 ?_
    intro p hp
    rw [List.mem_map] at hp
    obtain ⟨e, he, rfl⟩ := hp
    rw [mem_iter_positions]
    exact h.2.1 e he
  rw [List.length_map, length_iter_positions] at h1
  exact h1

theorem subject_not_blocked_and_transparent (s : Subject) :
    ¬(s.is_blocked = true ∧ s.is_transparent = true) := by
  cases s <;> simp [Subject.is_blocked, Subject.is_transparent]

/-- C3 (amended): for every grid reachable through the public operations
*whose cell count does not overflow `u32`*
(`row_count * column_count < 2^32`),
`active_cells() + blocked_cells() + transparent_cells()` equals
`row_count × column_count` (which is then exactly `total_cells()`); the
claim as stated fails for reachable grids with `2^32` or more cells, where
the `u32` product in `total_cells` wraps. -/
theorem cell_counts_partition (t : Table) (h1 : Reachable t)
    (h2 : t.row_count * t.column_count < U32M) :
    t.active_cells + t.blocked_cells + t.transparent_cells
      = t.row_count * t.column_count ∧
    t.total_cells = t.row_count * t.column_count := by
  have hw := reachable_wf h1
  have hlen := subjects_length_le t hw
  have hb := List.length_filter_le (fun e => e.2.is_blocked) t.subjects
  have htr := List.length_filter_le (fun e => e.2.is_transparent) t.subjects
  have hor : (t.subjects.filter (fun e => e.2.is_blocked)).length
      + (t.subjects.filter (fun e => e.2.is_transparent)).length
      = (t.subjects.filter (fun e => e.2.is_blocked || e.2.is_transparent)).length :=
    length_filter_or _ (fun a _ => subject_not_blocked_and_transparent a.2)
  have hor2 := List.length_filter_le
    (fun e => e.2.is_blocked || e.2.is_transparent) t.subjects
  have e1 : t.row_count * t.column_count % U32M = t.row_count * t.column_count :=
    Nat.mod_eq_of_lt h2
  have eb : (t.subjects.filter (fun e => e.2.is_blocked)).length % U32M
      = (t.subjects.filter (fun e => e.2.is_blocked)).length :=
    Nat.mod_eq_of_lt (by omega)
  have et : (t.subjects.filter (fun e => e.2.is_transparent)).length % U32M
      = (t.subjects.filter (fun e => e.2.is_transparent)).length :=
    Nat.mod_eq_of_lt (by omega)
  rw [Table.active_cells, Table.blocked_cells, Table.transparent_cells,
    Table.total_cells, e1, eb, et]
  have ebt : ((t.subjects.filter (fun e => e.2.is_blocked)).length
      + (t.subjects.filter (fun e => e.2.is_transparent)).length) % U32M
      = (t.subjects.filter (fun e => e.2.is_blocked)).length
        + (t.subjects.filter (fun e => e.2.is_transparent)).length :=
    Nat.mod_eq_of_lt (by omega)
  rw [ebt]
  exact ⟨by omega, rfl⟩

/-- C3 counterexample: `Table::new(65536, 65536, [((0,0), Block "b")])` is a
reachable grid, but `active_cells() + blocked_cells() + transparent_cells()`
is `1` while `total_cells()` is `0` (the `u32` product `65536 * 65536`
wraps to `0`), so the sum equals neither `total_cells()` nor the
mathematical product `row_count × column_count = 2^32`. -/
theorem cell_counts_partition_counterexample :
    Reachable (Table.new 65536 65536 [(⟨0, 0⟩, Subject.block "b")]) ∧
    (Table.new 65536 65536 [(⟨0, 0⟩, Subject.block "b")]).active_cells
      + (Table.new 65536 65536 [(⟨0, 0⟩, Subject.block "b")]).blocked_cells
      + (Table.new 65536 65536 [(⟨0, 0⟩, Subject.block "b")]).transparent_cells = 1 ∧
    (Table.new 65536 65536 [(⟨0, 0⟩, Subject.block "b")]).total_cells = 0 ∧
    (Table.new 65536 65536 [(⟨0, 0⟩, Subject.block "b")]).row_count
      * (Table.new 65536 65536 [(⟨0, 0⟩, Subject.block "b")]).column_count
      = 4294967296 := by
  exact ⟨Reachable.new 65536 65536 _ (by decide) (by decide),
    by decide, by decide, by decide⟩

/-- Concrete instance of `cell_counts_partition`: on a reachable 2×2 grid
with one blocked and one transparent cell the three counts sum to
`total_cells = 4`. -/
theorem cell_counts_partition_witness :
    (Table.new 2 2 [(⟨0, 0⟩, Subject.block "B1"),
        (⟨1, 1⟩, Subject.transparent)]).active_cells
      + (Table.new 2 2 [(⟨0, 0⟩, Subject.block "B1"),
        (⟨1, 1⟩, Subject.transparent)]).blocked_cells
      + (Table.new 2 2 [(⟨0, 0⟩, Subject.block "B1"),
        (⟨1, 1⟩, Subject.transparent)]).transparent_cells = 4 ∧
    (Table.new 2 2 [(⟨0, 0⟩, Subject.block "B1"),
        (⟨1, 1⟩, Subject.transparent)]).total_cells = 4 := by
  have h := cell_counts_partition
    (Table.new 2 2 [(⟨0, 0⟩, Subject.block "B1"), (⟨1, 1⟩, Subject.transparent)])
    (Reachable.new 2 2 _ (by decide) (by decide)) (by decide)
  exact ⟨h.1.trans (by decide), h.2.trans (by decide)⟩

/-- The number of positions of `ps` that the tally loop of
`AttendanceBook::statistics` counts under status `st`. -/
def cntStatus (b : AttendanceBook) (t : Table) (st : AttendanceStatus)
    (ps : List Position) : Nat :=
  (ps.filter (fun p => !t.is_inert p &&
    decide ((alookup b.statuses p).getD AttendanceStatus.unchecked = st))).length

theorem tally_fold (b : AttendanceBook) (t : Table) (ps : List Position) :
    ∀ acc : Nat × Nat × Nat, acc.1 < U32M → acc.2.1 < U32M → acc.2.2 < U32M →
      ps.foldl (tallyStep b t) acc
        = ((acc.1 + cntStatus b t .checked ps) % U32M,
          (acc.2.1 + cntStatus b t .unchecked ps) % U32M,
          (acc.2.2 + cntStatus b t .marked ps) % U32M) := by
  induction ps with
  | nil =>
    intro acc h1 h2 h3
    obtain ⟨c, u, m⟩ := acc
    simp only [List.foldl_nil, cntStatus, List.filter_nil, List.length_nil,
      Nat.add_zero]
    rw [Nat.mod_eq_of_lt h1, Nat.mod_eq_of_lt h2, Nat.mod_eq_of_lt h3]
  | cons p rest ih =>
    intro acc h1 h2 h3
    obtain ⟨c, u, m⟩ := acc
    rw [List.foldl_cons]
    cases hin : t.is_inert p with
    | true =>
      have hstep : tallyStep b t (c, u, m) p = (c, u, m) := by
        simp [tallyStep, hin]
      have hc : cntStatus b t .checked (p :: rest) = cntStatus b t .checked rest := by
        simp [cntStatus, List.filter_cons, hin]
      have hu : cntStatus b t .unchecked (p :: rest)
          = cntStatus b t .unchecked rest := by
        simp [cntStatus, List.filter_cons, hin]
      have hm : cntStatus b t .marked (p :: rest) = cntStatus b t .marked rest := by
        simp [cntStatus, List.filter_cons, hin]
      rw [hstep, ih (c, u, m) h1 h2 h3, hc, hu, hm]
    | false =>
      cases hst : (alookup b.statuses p).getD AttendanceStatus.unchecked with
      | checked =>
        have hstep : tallyStep b t (c, u, m) p = ((c + 1) % U32M, u, m) := by
          simp [tallyStep, hin, hst]
        have hc : cntStatus b t .checked (p :: rest)
            = cntStatus b t .checked rest + 1 := by
          simp [cntStatus, List.filter_cons, hin, hst]
        have hu : cntStatus b t .unchecked (p :: rest)
            = cntStatus b t .unchecked rest := by
          simp [cntStatus, List.filter_cons, hin, hst]
        have hm : cntStatus b t .marked (p :: rest) = cntStatus b t .marked rest := by
          simp [cntStatus, List.filter_cons, hin, hst]
        rw [hstep, ih ((c + 1) % U32M, u, m) (Nat.mod_lt _ (by decide)) h2 h3,
          hc, hu, hm]
        simp only [Prod.mk.injEq, and_true, true_and]
        rw [Nat.mod_add_mod]
        congr 1
        omega
      | unchecked =>
        have hstep : tallyStep b t (c, u, m) p = (c, (u + 1) % U32M, m) := by
          simp [tallyStep, hin, hst]
        have hc : cntStatus b t .checked (p :: rest) = cntStatus b t .checked rest := by
          simp [cntStatus, List.filter_cons, hin, hst]
        have hu : cntStatus b t .unchecked (p :: rest)
            = cntStatus b t .unchecked rest + 1 := by
          simp [cntStatus, List.filter_cons, hin, hst]
        have hm : cntStatus b t .marked (p :: rest) = cntStatus b t .marked rest := by
          simp [cntStatus, List.filter_cons, hin, hst]
        rw [hstep, ih (c, (u + 1) % U32M, m) h1 (Nat.mod_lt _ (by decide)) h3,
          hc, hu, hm]
        simp only [Prod.mk.injEq, and_true, true_and]
        rw [Nat.mod_add_mod]
        congr 1
        omega
      | marked =>
        have hstep : tallyStep b t (c, u, m) p = (c, u, (m + 1) % U32M) := by
          simp [tallyStep, hin, hst]
        have hc : cntStatus b t .checked (p :: rest) = cntStatus b t .checked rest := by
          simp [cntStatus, List.filter_cons, hin, hst]
        have hu : cntStatus b t .unchecked (p :: rest)
            = cntStatus b t .unchecked rest := by
          simp [cntStatus, List.filter_cons, hin, hst]
        have hm : cntStatus b t .marked (p :: rest)
            = cntStatus b t .marked rest + 1 := by
          simp [cntStatus, List.filter_cons, hin, hst]
        rw [hstep, ih (c, u, (m + 1) % U32M) h1 h2 (Nat.mod_lt _ (by decide)),
          hc, hu, hm]
        simp only [Prod.mk.injEq, and_true, true_and]
        rw [Nat.mod_add_mod]
        congr 1
        omega

theorem statistics_components (b : AttendanceBook) (t : Table) :
    (b.statistics t).checked = cntStatus b t .checked t.iter_positions % U32M ∧
    (b.statistics t).unchecked = cntStatus b t .unchecked t.iter_positions % U32M ∧
    (b.statistics t).marked = cntStatus b t .marked t.iter_positions % U32M ∧
    (b.statistics t).active_total = t.active_cells ∧
    (b.statistics t).blocked_total = t.blocked_cells := by
  have h := tally_fold b t t.iter_positions (0, 0, 0) (by decide) (by decide)
    (by decide)
  refine ⟨?_, ?_, ?_, rfl, rfl⟩
  · rw [show (b.statistics t).checked
        = (t.iter_positions.foldl (tallyStep b t) (0, 0, 0)).1 from rfl, h]
    simp
  · rw [show (b.statistics t).unchecked
        = (t.iter_positions.foldl (tallyStep b t) (0, 0, 0)).2.1 from rfl, h]
    simp
  · rw [show (b.statistics t).marked
        = (t.iter_positions.foldl (tallyStep b t) (0, 0, 0)).2.2 from rfl, h]
    simp

theorem cnt_status_sum (b : AttendanceBook) (t : Table) (ps : List Position) :
    cntStatus b t .checked ps + cntStatus b t .unchecked ps
        + cntStatus b t .marked ps
      = (ps.filter (fun p => !t.is_inert p)).length := by
  induction ps with
  | nil => simp [cntStatus]
  | cons p rest ih =>
    have ih' := ih
    simp only [cntStatus] at ih' ⊢
    cases hin : t.is_inert p with
    | true => simp [List.filter_cons, hin, ih']
    | false =>
      cases hst : (alookup b.statuses p).getD AttendanceStatus.unchecked <;>
        simp [List.filter_cons, hin, hst] <;> omega

theorem is_inert_eq_false_of_lookup {t : Table} {p : Position}
    (h : ∀ v, alookup t.subjects p = some v → v.is_inert = false) :
    t.is_inert p = false := by
  cases hc : t.contains p with
  | false => simp [Table.is_inert, Table.cell_kind, hc]
  | true =>
    cases hl : alookup t.subjects p with
    | none => simp [Table.is_inert, Table.cell_kind, hc, hl]
    | some v =>
      have hv := h v hl
      cases v <;>
        simp_all [Table.is_inert, Table.cell_kind, Subject.is_inert,
          Subject.is_transparent, Subject.is_blocked]

theorem is_inert_eq_true_of_lookup {t : Table} {p : Position}
    (hc : t.contains p = true) {v : Subject}
    (hl : alookup t.subjects p = some v) (hv : v.is_inert = true) :
    t.is_inert p = true := by
  cases v <;>
    simp_all [Table.is_inert, Table.cell_kind, Subject.is_inert,
      Subject.is_transparent, Subject.is_blocked]

theorem inert_positions_count (t : Table) (h : t.WF) :
    (t.iter_positions.filter (fun p => t.is_inert p)).length
      = (t.subjects.filter (fun e => e.2.is_inert)).length := by
  have hSnodup : ((t.subjects.filter (fun e => e.2.is_inert)).map Prod.fst).Nodup :=
    ((List.filter_sublist _).map Prod.fst).nodup h.1
  have hsub : ∀ p ∈ (t.subjects.filter (fun e => e.2.is_inert)).map Prod.fst,
      p ∈ t.iter_positions := by
    intro p hp
    rw [List.mem_map] at hp
    obtain ⟨e, he, rfl⟩ := hp
    rw [List.mem_filter] at he
    rw [mem_iter_positions]
    exact h.2.1 e he.1
  have hpoint : ∀ p ∈ t.iter_positions,
      t.is_inert p
        = decide (p ∈ (t.subjects.filter (fun e => e.2.is_inert)).map Prod.fst) := by
    intro p hp
    have hc : t.contains p = true := by
      rw [Table.contains]
      exact decide_eq_true ((mem_iter_positions t p).mp hp)
    by_cases hmem : p ∈ (t.subjects.filter (fun e => e.2.is_inert)).map Prod.fst
    · rw [decide_eq_true hmem]
      rw [List.mem_map] at hmem
      obtain ⟨⟨q, v⟩, he, rfl⟩ := hmem
      rw [List.mem_filter] at he
      exact is_inert_eq_true_of_lookup hc (alookup_eq_some_of_mem h.1 he.1) he.2
    · rw [decide_eq_false hmem]
      refine is_inert_eq_false_of_lookup ?_
      intro v hl
      cases hvi : v.is_inert with
      | false => rfl
      | true =>
        exfalso
        refine hmem (List.mem_map.mpr ⟨(p, v), ?_, rfl⟩)
        rw [List.mem_filter]
        exact ⟨mem_of_alookup_eq_some hl, hvi⟩
  calc (t.iter_positions.filter (fun p => t.is_inert p)).length
      = (t.iter_positions.filter (fun p =>
          decide (p ∈ (t.subjects.filter (fun e => e.2.is_inert)).map Prod.fst))).length := by
        rw [List.filter_congr hpoint]
    _ = ((t.subjects.filter (fun e => e.2.is_inert)).map Prod.fst).length :=
        length_filter_mem (nodup_iter_positions t) hSnodup hsub
    _ = (t.subjects.filter (fun e => e.2.is_inert)).length := List.length_map _ _

theorem inert_entries_split (l : List (Position × Subject)) :
    (l.filter (fun e => e.2.is_blocked)).length
        + (l.filter (fun e => e.2.is_transparent)).length
      = (l.filter (fun e => e.2.is_inert)).length := by
  rw [length_filter_or l (fun a _ => subject_not_blocked_and_transparent a.2)]
  congr 1
  refine List.filter_congr ?_
  intro e _
  obtain ⟨q, s⟩ := e
  cases s <;> rfl

theorem active_cells_eq (t : Table) (hw : t.WF)
    (hov : t.row_count * t.column_count < U32M) :
    t.active_cells = t.row_count * t.column_count
      - (t.subjects.filter (fun e => e.2.is_inert)).length := by
  have hlen := subjects_length_le t hw
  have hb := List.length_filter_le (fun e => e.2.is_blocked) t.subjects
  have htr := List.length_filter_le (fun e => e.2.is_transparent) t.subjects
  have hsplit := inert_entries_split t.subjects
  have hinle := List.length_filter_le (fun e => e.2.is_inert) t.subjects
  rw [Table.active_cells, Table.blocked_cells, Table.transparent_cells,
    Table.total_cells]
  rw [Nat.mod_eq_of_lt hov, Nat.mod_eq_of_lt (show
    (t.subjects.filter (fun e => e.2.is_blocked)).length < U32M by omega),
    Nat.mod_eq_of_lt (show
    (t.subjects.filter (fun e => e.2.is_transparent)).length < U32M by omega),
    Nat.mod_eq_of_lt (show
    (t.subjects.filter (fun e => e.2.is_blocked)).length
      + (t.subjects.filter (fun e => e.2.is_transparent)).length < U32M by omega)]
  omega

theorem statistics_sum_aux (b : AttendanceBook) (t : Table) (hw : t.WF)
    (hov : t.row_count * t.column_count < U32M) :
    (b.statistics t).checked = cntStatus b t .checked t.iter_positions ∧
    (b.statistics t).unchecked = cntStatus b t .unchecked t.iter_positions ∧
    (b.statistics t).marked = cntStatus b t .marked t.iter_positions ∧
    (b.statistics t).checked + (b.statistics t).unchecked + (b.statistics t).marked
      = (b.statistics t).active_total := by
  have hcomp := statistics_components b t
  have hiter := length_iter_positions t
  have hcle : cntStatus b t .checked t.iter_positions ≤ t.iter_positions.length := by
    rw [cntStatus]
    exact List.length_filter_le _ _
  have hule : cntStatus b t .unchecked t.iter_positions ≤ t.iter_positions.length := by
    rw [cntStatus]
    exact List.length_filter_le _ _
  have hmle : cntStatus b t .marked t.iter_positions ≤ t.iter_positions.length := by
    rw [cntStatus]
    exact List.length_filter_le _ _
  have ec : (b.statistics t).checked = cntStatus b t .checked t.iter_positions := by
    rw [hcomp.1, Nat.mod_eq_of_lt (by omega)]
  have eu : (b.statistics t).unchecked = cntStatus b t .unchecked t.iter_positions := by
    rw [hcomp.2.1, Nat.mod_eq_of_lt (by omega)]
  have em : (b.statistics t).marked = cntStatus b t .marked t.iter_positions := by
    rw [hcomp.2.2.1, Nat.mod_eq_of_lt (by omega)]
  refine ⟨ec, eu, em, ?_⟩
  have hsum := cnt_status_sum b t t.iter_positions
  have hneg := length_filter_neg (fun p => t.is_inert p) t.iter_positions
  have hipc := inert_positions_count t hw
  have hact : (b.statistics t).active_total
      = t.row_count * t.column_count
        - (t.subjects.filter (fun e => e.2.is_inert)).length := by
    rw [hcomp.2.2.2.1, active_cells_eq t hw hov]
  rw [ec, eu, em, hsum, hact, hneg, hipc, hiter]

/-- C10 (amended): for every grid whose explicit entries lie at distinct
in-bounds positions with `u32` dimensions (which is `Table.WF`, exactly
what every Rust-side grid satisfies) *and whose cell count does not
overflow `u32`*, and every attendance book — even an unreconciled one —
`statistics` satisfies `checked + unchecked + marked = active_total`:
untracked positions tally as `Unchecked` and exactly the in-bounds
non-inert positions are tallied.  Without the overflow bound the equality
fails (see the counterexample). -/
theorem statistics_partition_of_inbounds (t : Table) (b : AttendanceBook)
    (hw : t.WF) (hov : t.row_count * t.column_count < U32M) :
    (b.statistics t).checked + (b.statistics t).unchecked
        + (b.statistics t).marked
      = (b.statistics t).active_total :=
  (statistics_sum_aux b t hw hov).2.2.2

/-- The 65536×65536 grid with three blocked cells; its `u32` cell count
wraps to `0`. -/
def tOv3 : Table :=
  Table.new 65536 65536 [(⟨0, 0⟩, Subject.block "b"), (⟨1, 0⟩, Subject.block "b"),
    (⟨2, 0⟩, Subject.block "b")]

/-- C10 counterexample: on `tOv3` (all entries in bounds, at distinct
positions) with the empty book, `checked + unchecked + marked` is
`2^32 - 3` while `active_total` is `0`: `total_cells` wraps to `0`, so
`active_cells` saturates at `0`, while the tally visits all `2^32`
positions and its `u32` counter wraps. -/
theorem statistics_partition_counterexample :
    (∀ e ∈ tOv3.subjects, e.1.x < tOv3.column_count ∧ e.1.y < tOv3.row_count) ∧
    KeysNodup tOv3.subjects ∧
    ((AttendanceBook.mk []).statistics tOv3).checked
        + ((AttendanceBook.mk []).statistics tOv3).unchecked
        + ((AttendanceBook.mk []).statistics tOv3).marked = 4294967293 ∧
    ((AttendanceBook.mk []).statistics tOv3).active_total = 0 := by
  have hwf : tOv3.WF := wf_new _ _ _ (by decide) (by decide)
  have hcomp := statistics_components (AttendanceBook.mk []) tOv3
  have hC : cntStatus (AttendanceBook.mk []) tOv3 AttendanceStatus.checked
      tOv3.iter_positions = 0 := by
    rw [cntStatus]
    have hnil : tOv3.iter_positions.filter (fun p => !tOv3.is_inert p &&
        decide ((alookup (AttendanceBook.mk []).statuses p).getD
          AttendanceStatus.unchecked = AttendanceStatus.checked)) = [] := by
      rw [List.filter_eq_nil_iff]
      intro p hp
      simp [alookup]
    rw [hnil]
    rfl
  have hM : cntStatus (AttendanceBook.mk []) tOv3 AttendanceStatus.marked
      tOv3.iter_positions = 0 := by
    rw [cntStatus]
    have hnil : tOv3.iter_positions.filter (fun p => !tOv3.is_inert p &&
        decide ((alookup (AttendanceBook.mk []).statuses p).getD
          AttendanceStatus.unchecked = AttendanceStatus.marked)) = [] := by
      rw [List.filter_eq_nil_iff]
      intro p hp
      simp [alookup]
    rw [hnil]
    rfl
  have hU : cntStatus (AttendanceBook.mk []) tOv3 AttendanceStatus.unchecked
      tOv3.iter_positions = 4294967293 := by
    rw [cntStatus]
    have hcongr : ∀ p ∈ tOv3.iter_positions,
        (!tOv3.is_inert p && decide ((alookup (AttendanceBook.mk []).statuses p).getD
          AttendanceStatus.unchecked = AttendanceStatus.unchecked))
          = !tOv3.is_inert p := by
      intro p hp
      simp [alookup]
    rw [List.filter_congr hcongr,
      length_filter_neg (fun p => tOv3.is_inert p) tOv3.iter_positions,
      inert_positions_count tOv3 hwf, length_iter_positions]
    decide
  have ec : ((AttendanceBook.mk []).statistics tOv3).checked = 0 := by
    rw [hcomp.1, hC]
    decide
  have eu : ((AttendanceBook.mk []).statistics tOv3).unchecked = 4294967293 := by
    rw [hcomp.2.1, hU]
    decide
  have em : ((AttendanceBook.mk []).statistics tOv3).marked = 0 := by
    rw [hcomp.2.2.1, hM]
    decide
  refine ⟨by decide, ?_, ?_, ?_⟩
  · show (tOv3.subjects.map Prod.fst).Nodup
    decide
  · rw [ec, eu, em]
  · rw [hcomp.2.2.2.1]
    decide

/-- Concrete instance of `statistics_partition_of_inbounds`: the 2×2 grid
with `Occupied("Amy")` at `(0,0)`, `Block("B1")` at `(1,0)` and a book
marking `(0,0)` yields `{checked 0, unchecked 2, marked 1, active_total 3}`
and the partition holds. -/
theorem statistics_partition_of_inbounds_witness :
    ((AttendanceBook.mk [(⟨0, 0⟩, AttendanceStatus.marked)]).statistics
        (Table.new 2 2 [(⟨0, 0⟩, Subject.occupied "Amy"),
          (⟨1, 0⟩, Subject.block "B1")])).checked
      + ((AttendanceBook.mk [(⟨0, 0⟩, AttendanceStatus.marked)]).statistics
        (Table.new 2 2 [(⟨0, 0⟩, Subject.occupied "Amy"),
          (⟨1, 0⟩, Subject.block "B1")])).unchecked
      + ((AttendanceBook.mk [(⟨0, 0⟩, AttendanceStatus.marked)]).statistics
        (Table.new 2 2 [(⟨0, 0⟩, Subject.occupied "Amy"),
          (⟨1, 0⟩, Subject.block "B1")])).marked
      = ((AttendanceBook.mk [(⟨0, 0⟩, AttendanceStatus.marked)]).statistics
        (Table.new 2 2 [(⟨0, 0⟩, Subject.occupied "Amy"),
          (⟨1, 0⟩, Subject.block "B1")])).active_total ∧
    ((AttendanceBook.mk [(⟨0, 0⟩, AttendanceStatus.marked)]).statistics
        (Table.new 2 2 [(⟨0, 0⟩, Subject.occupied "Amy"),
          (⟨1, 0⟩, Subject.block "B1")])).active_total = 3 := by
  have h := statistics_partition_of_inbounds
    (Table.new 2 2 [(⟨0, 0⟩, Subject.occupied "Amy"), (⟨1, 0⟩, Subject.block "B1")])
    (AttendanceBook.mk [(⟨0, 0⟩, AttendanceStatus.marked)])
    (wf_new 2 2 _ (by decide) (by decide)) (by decide)
  exact ⟨h, by decide⟩

/-- C6 (amended): for every aggregate produced by `statistics` on a
well-formed grid whose cell count does not overflow `u32`
(`row_count * column_count < 2^32`): `completed_ratio_percent` is `0` when
`active_total = 0`; otherwise it equals the exact integer division
`100 * (checked + marked) / active_total` provided the `u32` product
`100 * (checked + marked)` does not overflow; and it never exceeds `100`.
Without the cell-count bound the ratio can exceed `100` (see the
counterexample). -/
theorem completed_ratio_percent_spec (t : Table) (b : AttendanceBook)
    (hw : t.WF) (hov : t.row_count * t.column_count < U32M) :
    ((b.statistics t).active_total = 0 →
      (b.statistics t).completed_ratio_percent = 0) ∧
    ((b.statistics t).active_total ≠ 0 →
      100 * ((b.statistics t).checked + (b.statistics t).marked) < U32M →
      (b.statistics t).completed_ratio_percent
        = 100 * ((b.statistics t).checked + (b.statistics t).marked)
            / (b.statistics t).active_total) ∧
    (b.statistics t).completed_ratio_percent ≤ 100 := by
  have haux := statistics_sum_aux b t hw hov
  have hcm : (b.statistics t).checked + (b.statistics t).marked
      ≤ (b.statistics t).active_total := by
    have := haux.2.2.2
    omega
  have haW : (b.statistics t).active_total < U32M := by
    rw [(statistics_components b t).2.2.2.1, Table.active_cells]
    have h1 : t.total_cells < U32M := Nat.mod_lt _ (by decide)
    omega
  have hcc : (b.statistics t).completed_count
      = (b.statistics t).checked + (b.statistics t).marked := by
    rw [AttendanceStatistics.completed_count, Nat.mod_eq_of_lt (by omega)]
  refine ⟨?_, ?_, ?_⟩
  · intro ha
    rw [AttendanceStatistics.completed_ratio_percent, if_pos ha]
  · intro ha h100
    rw [AttendanceStatistics.completed_ratio_percent, if_neg ha, hcc]
    rw [Nat.mul_comm ((b.statistics t).checked + (b.statistics t).marked) 100,
      Nat.mod_eq_of_lt h100]
  · by_cases ha : (b.statistics t).active_total = 0
    · rw [AttendanceStatistics.completed_ratio_percent, if_pos ha]
      omega
    · rw [AttendanceStatistics.completed_ratio_percent, if_neg ha, hcc]
      have hstep1 : ((b.statistics t).checked + (b.statistics t).marked) * 100 % U32M
          / (b.statistics t).active_total
          ≤ ((b.statistics t).checked + (b.statistics t).marked) * 100
            / (b.statistics t).active_total :=
        Nat.div_le_div_right (Nat.mod_le _ _)
      have hstep2 : ((b.statistics t).checked + (b.statistics t).marked) * 100
            / (b.statistics t).active_total
          ≤ 100 * (b.statistics t).active_total / (b.statistics t).active_total := by
        refine Nat.div_le_div_right ?_
        rw [Nat.mul_comm]
        exact Nat.mul_le_mul_left 100 hcm
      have hstep3 : 100 * (b.statistics t).active_total
          / (b.statistics t).active_total = 100 :=
        Nat.mul_div_cancel 100 (Nat.pos_of_ne_zero ha)
      omega

/-- The 641 × 6700417 empty grid: its cell count is `2^32 + 1`, so the `u32`
product in `total_cells` wraps to `1`. -/
def t641 : Table := Table.new 641 6700417 []

/-- A book that has two seats of `t641` checked (obtainable from the empty
book by two successful `update_status` calls). -/
def bTwoChecked : AttendanceBook :=
  AttendanceBook.mk [(⟨0, 0⟩, AttendanceStatus.checked),
    (⟨1, 0⟩, AttendanceStatus.checked)]

/-- C6 counterexample: on the reachable grid `t641` (641 × 6700417 cells,
`total_cells` wraps to `1`, hence `active_total = 1`) with two positions
checked, `completed_ratio_percent` evaluates to `200`, exceeding `100` and
refuting the unrestricted claim. -/
theorem completed_ratio_percent_counterexample :
    Reachable t641 ∧
    (bTwoChecked.statistics t641).active_total = 1 ∧
    (bTwoChecked.statistics t641).completed_ratio_percent = 200 ∧
    100 < (bTwoChecked.statistics t641).completed_ratio_percent := by
  have hwf : t641.WF := wf_new _ _ _ (by decide) (by decide)
  have hcomp := statistics_components bTwoChecked t641
  have hin : ∀ p, t641.is_inert p = false := by
    intro p
    refine is_inert_eq_false_of_lookup ?_
    intro v hv
    rw [show t641.subjects = [] from rfl] at hv
    simp [alookup] at hv
  have hC : cntStatus bTwoChecked t641 AttendanceStatus.checked
      t641.iter_positions = 2 := by
    rw [cntStatus]
    have hcongr : ∀ p ∈ t641.iter_positions,
        (!t641.is_inert p && decide ((alookup bTwoChecked.statuses p).getD
          AttendanceStatus.unchecked = AttendanceStatus.checked))
          = decide (p ∈ [(⟨0, 0⟩ : Position), ⟨1, 0⟩]) := by
      intro p hp
      rw [hin p]
      by_cases h0 : p = ⟨0, 0⟩
      · subst h0
        decide
      · by_cases h1 : p = ⟨1, 0⟩
        · subst h1
          decide
        · have hl : alookup bTwoChecked.statuses p = none := by
            simp [bTwoChecked, alookup, h0, h1]
          simp [hl, h0, h1]
    rw [List.filter_congr hcongr]
    rw [length_filter_mem (nodup_iter_positions t641) (by decide) ?_]
    · rfl
    · intro a ha
      rw [mem_iter_positions]
      simp only [List.mem_cons, List.not_mem_nil, or_false] at ha
      rcases ha with rfl | rfl
      · exact ⟨by decide, by decide⟩
      · exact ⟨by decide, by decide⟩
  have hM : cntStatus bTwoChecked t641 AttendanceStatus.marked
      t641.iter_positions = 0 := by
    rw [cntStatus]
    have hnil : t641.iter_positions.filter (fun p => !t641.is_inert p &&
        decide ((alookup bTwoChecked.statuses p).getD
          AttendanceStatus.unchecked = AttendanceStatus.marked)) = [] := by
      rw [List.filter_eq_nil_iff]
      intro p hp
      rw [hin p]
      by_cases h0 : p = ⟨0, 0⟩
      · subst h0
        decide
      · by_cases h1 : p = ⟨1, 0⟩
        · subst h1
          decide
        · have hl : alookup bTwoChecked.statuses p = none := by
            simp [bTwoChecked, alookup, h0, h1]
          simp [hl]
    rw [hnil]
    rfl
  have ec : (bTwoChecked.statistics t641).checked = 2 := by
    rw [hcomp.1, hC]
    decide
  have em : (bTwoChecked.statistics t641).marked = 0 := by
    rw [hcomp.2.2.1, hM]
    decide
  have ha : (bTwoChecked.statistics t641).active_total = 1 := by
    rw [hcomp.2.2.2.1]
    decide
  have hrat : (bTwoChecked.statistics t641).completed_ratio_percent = 200 := by
    rw [AttendanceStatistics.completed_ratio_percent,
      AttendanceStatistics.completed_count, ha, ec, em]
    decide
  refine ⟨Reachable.new 641 6700417 [] (by decide) (by decide), ha, hrat, ?_⟩
  rw [hrat]
  decide

/-- Concrete instance of `completed_ratio_percent_spec`, matching the spec's
own scenario: a 2×2 grid with `Occupied("Amy")`, one blocked cell, and
`(0,0)` set to `Marked` gives `active_total = 3`, one completed seat, and
ratio `floor(100 * 1 / 3) = 33 ≤ 100`. -/
theorem completed_ratio_percent_spec_witness :
    ((AttendanceBook.mk [(⟨0, 0⟩, AttendanceStatus.marked)]).statistics
        (Table.new 2 2 [(⟨0, 0⟩, Subject.occupied "Amy"),
          (⟨1, 0⟩, Subject.block "B1")])).completed_ratio_percent = 33 ∧
    ((AttendanceBook.mk [(⟨0, 0⟩, AttendanceStatus.marked)]).statistics
        (Table.new 2 2 [(⟨0, 0⟩, Subject.occupied "Amy"),
          (⟨1, 0⟩, Subject.block "B1")])).completed_ratio_percent ≤ 100 := by
  have h := completed_ratio_percent_spec
    (Table.new 2 2 [(⟨0, 0⟩, Subject.occupied "Amy"), (⟨1, 0⟩, Subject.block "B1")])
    (AttendanceBook.mk [(⟨0, 0⟩, AttendanceStatus.marked)])
    (wf_new 2 2 _ (by decide) (by decide)) (by decide)
  refine ⟨?_, h.2.2⟩
  rw [h.2.1 (by decide) (by decide)]
  decide

theorem mem_dropWhile_of_neg {α : Type} {P : α → Bool} {l : List α} {c : α}
    (hc : c ∈ l) (hP : P c = false) : c ∈ l.dropWhile P := by
  induction l with
  | nil => simp at hc
  | cons a rest ih =>
    rw [List.dropWhile_cons]
    by_cases ha : P a
    · rw [if_pos ha]
      rcases List.mem_cons.mp hc with rfl | hc'
      · rw [hP] at ha
        exact absurd ha (by simp)
      · exact ih hc'
    · rw [if_neg ha]
      exact hc

theorem not_of_head_dropWhile {α : Type} {P : α → Bool} :
    ∀ (l : List α) (c : α) (rest : List α), l.dropWhile P = c :: rest →
      P c = false := by
  intro l
  induction l with
  | nil =>
    intro c rest h
    simp [List.dropWhile] at h
  | cons a t ih =>
    intro c rest h
    rw [List.dropWhile_cons] at h
    by_cases ha : P a
    · rw [if_pos ha] at h
      exact ih c rest h
    · rw [if_neg ha] at h
      injection h with h1 h2
      subst h1
      cases hb : P a with
      | false => rfl
      | true => exact absurd hb ha

theorem charTrim_ne_nil_of_mem {l : List Char} {c : Char} (hc : c ∈ l)
    (hw : isRustWhitespace c = false) : charTrim l ≠ [] := by
  have h1 : c ∈ l.dropWhile isRustWhitespace := mem_dropWhile_of_neg hc hw
  have h2 : c ∈ (l.dropWhile isRustWhitespace).reverse := List.mem_reverse.mpr h1
  have h3 : c ∈ (l.dropWhile isRustWhitespace).reverse.dropWhile isRustWhitespace :=
    mem_dropWhile_of_neg h2 hw
  have h4 : c ∈ charTrim l := by
    rw [charTrim]
    exact List.mem_reverse.mpr h3
  exact List.ne_nil_of_mem h4

theorem exists_not_ws_of_charTrim_ne_nil {m : List Char} (h : charTrim m ≠ []) :
    ∃ c ∈ charTrim m, isRustWhitespace c = false := by
  rw [charTrim] at h ⊢
  cases hY : (m.dropWhile isRustWhitespace).reverse.dropWhile isRustWhitespace with
  | nil =>
    rw [hY] at h
    simp at h
  | cons c rest =>
    refine ⟨c, ?_, not_of_head_dropWhile _ c rest hY⟩
    rw [List.mem_reverse]
    exact List.mem_cons_self c rest

theorem strTrim_strTrim_ne_empty {n : String} (h : strTrim n ≠ "") :
    strTrim (strTrim n) ≠ "" := by
  have hne : charTrim n.data ≠ [] := by
    intro hc
    refine h ?_
    rw [strTrim, hc]
  obtain ⟨c, hc, hw⟩ := exists_not_ws_of_charTrim_ne_nil hne
  have h2 : charTrim (charTrim n.data) ≠ [] := charTrim_ne_nil_of_mem hc hw
  intro he
  refine h2 ?_
  have hd := congrArg String.data he
  simpa [strTrim] using hd

theorem normalize_subject_occupied {s : Option Subject} {n : String}
    (h : normalize_subject s = some (Subject.occupied n)) : strTrim n ≠ "" := by
  match s with
  | none => simp [normalize_subject] at h
  | some .transparent => simp [normalize_subject] at h
  | some (.block m) => simp [normalize_subject] at h
  | some (.occupied m) =>
    rw [normalize_subject] at h
    by_cases hm : strTrim m = ""
    · simp [hm] at h
    · simp only [hm, if_false, Option.some.injEq, Subject.occupied.injEq] at h
      rw [← h]
      exact strTrim_strTrim_ne_empty hm

/-- No stored `Occupied` entry has a name that normalizes to empty. -/
def NoBlankEntries (l : List (Position × Subject)) : Prop :=
  ∀ e ∈ l, ∀ n, e.2 = Subject.occupied n → strTrim n ≠ ""

/-- Grids reachable through the public operations *from normalized inputs*:
like `Reachable`, but the entry list handed to `Table::new` (directly, or
through `load_config` / `default_table`) carries no `Occupied` cell whose
trimmed name is empty. -/
inductive ReachableN : Table → Prop where
  | new : ∀ r c l, r < U32M → c < U32M → NoBlankEntries l →
      ReachableN (Table.new r c l)
  | set_subject : ∀ t p s, ReachableN t → ReachableN (t.set_subject p s).1
  | add_row : ∀ t, ReachableN t → ReachableN t.add_row
  | add_column : ∀ t, ReachableN t → ReachableN t.add_column
  | remove_row : ∀ t i, ReachableN t → ReachableN (t.remove_row i).1
  | remove_column : ∀ t i, ReachableN t → ReachableN (t.remove_column i).1

theorem noblank_new_fold (rc cc : Nat) (l : List (Position × Subject)) :
    ∀ acc : List (Position × Subject), NoBlankEntries acc → NoBlankEntries l →
      NoBlankEntries (l.foldl
        (fun m e => if e.1.x < cc ∧ e.1.y < rc then ainsert m e.1 e.2 else m) acc) := by
  induction l with
  | nil => exact fun acc h1 _ => h1
  | cons a rest ih =>
    intro acc h1 h2
    rw [List.foldl_cons]
    have h2rest : NoBlankEntries rest := fun e he => h2 e (List.mem_cons_of_mem _ he)
    by_cases hb : a.1.x < cc ∧ a.1.y < rc
    · rw [if_pos hb]
      refine ih (ainsert acc a.1 a.2) ?_ h2rest
      intro e he n hn
      rcases mem_ainsert he with he | he
      · subst he
        exact h2 a (List.mem_cons_self a rest) n hn
      · exact h1 e he n hn
    · rw [if_neg hb]
      exact ih acc h1 h2rest

theorem noblank_set_subject (t : Table) (p : Position) (s : Option Subject)
    (h : NoBlankEntries t.subjects) :
    NoBlankEntries ((t.set_subject p s).1).subjects := by
  simp only [Table.set_subject]
  by_cases h1 : t.contains p = false
  · simp only [if_pos h1]
    exact h
  · simp only [if_neg h1]
    by_cases h2 : alookup t.subjects p = normalize_subject s
    · rw [if_pos h2]
      exact h
    · rw [if_neg h2]
      cases hns : normalize_subject s with
      | some sub =>
        simp only [hns]
        intro e he n hn
        rcases mem_ainsert he with he | he
        · subst he
          have hsub : sub = Subject.occupied n := hn
          refine normalize_subject_occupied (s := s) ?_
          rw [hns, hsub]
        · exact h e he n hn
      | none =>
        simp only [hns]
        exact fun e he n hn => h e (mem_of_mem_aerase he) n hn

theorem noblank_filterMap {l : List (Position × Subject)}
    (f : Position × Subject → Option (Position × Subject))
    (hf : ∀ a e, f a = some e → e.2 = a.2) (h : NoBlankEntries l) :
    NoBlankEntries (l.filterMap f) := by
  intro e he n hn
  rw [List.mem_filterMap] at he
  obtain ⟨a, ha, hfa⟩ := he
  refine h a ha n ?_
  rw [← hf a e hfa]
  exact hn

theorem row_shift_entry_snd (i : Nat) (a e : Position × Subject)
    (h : row_shift_entry i a = some e) : e.2 = a.2 := by
  rw [row_shift_entry] at h
  by_cases ha : a.1.y = i
  · simp [ha] at h
  · simp only [ha, if_false, Option.some.injEq] at h
    rw [← h]

theorem column_shift_entry_snd (i : Nat) (a e : Position × Subject)
    (h : column_shift_entry i a = some e) : e.2 = a.2 := by
  rw [column_shift_entry] at h
  by_cases ha : a.1.x = i
  · simp [ha] at h
  · simp only [ha, if_false, Option.some.injEq] at h
    rw [← h]

/-- C8 (amended): the blank-normalization invariant holds for every grid
reachable from normalized inputs: if the entry lists handed to
`Table::new` (directly or via a loaded config) contain no `Occupied` cell
with an empty/whitespace-only name, then no grid obtained by any sequence
of `set_content` / add / remove operations ever stores one — in particular
`set_content` itself always trims and drops blank `Occupied` names.
As stated, the claim is false: `Table::new` (and
`TableConfigSubject::into_subject` feeding it during a load) stores its
input entries verbatim, without normalization (see the counterexample). -/
theorem no_blank_occupied_of_normalized (t : Table) (h : ReachableN t) :
    ∀ p n, alookup t.subjects p = some (Subject.occupied n) → strTrim n ≠ "" := by
  have hnb : NoBlankEntries t.subjects := by
    induction h with
    | new r c l hr hc hl => exact noblank_new_fold r c l [] (by intro e he; simp at he) hl
    | set_subject t p s _ ih => exact noblank_set_subject t p s ih
    | add_row t _ ih => exact ih
    | add_column t _ ih => exact ih
    | remove_row t i _ ih =>
      rw [Table.remove_row]
      by_cases hg : i ≥ t.row_count ∨ t.row_count ≤ 1
      · rw [if_pos hg]
        exact ih
      · rw [if_neg hg]
        exact noblank_filterMap _ (row_shift_entry_snd i) ih
    | remove_column t i _ ih =>
      rw [Table.remove_column]
      by_cases hg : i ≥ t.column_count ∨ t.column_count ≤ 1
      · rw [if_pos hg]
        exact ih
      · rw [if_neg hg]
        exact noblank_filterMap _ (column_shift_entry_snd i) ih
  intro p n hl
  exact hnb _ (mem_of_alookup_eq_some hl) n rfl

/-- C8 counterexample: `Table::new(1, 1, [((0,0), Occupied(" "))])` is a
grid reachable through the public constructor, yet its sparse map holds an
`Occupied` entry whose name `" "` normalizes (trims) to the empty string —
`Table::new` performs no content normalization. -/
theorem no_blank_occupied_counterexample :
    Reachable (Table.new 1 1 [(⟨0, 0⟩, Subject.occupied " ")]) ∧
    alookup (Table.new 1 1 [(⟨0, 0⟩, Subject.occupied " ")]).subjects ⟨0, 0⟩
      = some (Subject.occupied " ") ∧
    strTrim " " = "" :=
  ⟨Reachable.new 1 1 _ (by decide) (by decide), by decide, by decide⟩

/-- Concrete instance of `no_blank_occupied_of_normalized`: a 1×1 grid
created with the non-blank name `"Amy"` stores it, and its trimmed name is
nonempty. -/
theorem no_blank_occupied_of_normalized_witness :
    alookup (Table.new 1 1 [(⟨0, 0⟩, Subject.occupied "Amy")]).subjects ⟨0, 0⟩
      = some (Subject.occupied "Amy") ∧
    strTrim "Amy" ≠ "" := by
  have hnb : NoBlankEntries [(⟨0, 0⟩, Subject.occupied "Amy")] := by
    intro e he n hn
    rw [List.mem_singleton] at he
    subst he
    injection hn with h
    subst h
    decide
  exact ⟨by decide,
    no_blank_occupied_of_normalized (Table.new 1 1 [(⟨0, 0⟩, Subject.occupied "Amy")])
      (ReachableN.new 1 1 _ (by decide) (by decide) hnb) ⟨0, 0⟩ "Amy" (by decide)⟩

/-- C9: `load_config` first attempts the wrapped schema (an object with a
`default_table` field); on failure it attempts the bare table schema; a
document valid under either schema produces the corresponding grid
(wrapped taking precedence), and a document matching neither yields a
distinguishable `Err` — never a panic and never a substituted default
grid. -/
theorem load_config_schema_fallback (j : Json) :
    (∀ c, decodeAppConfigFile j = some c →
      Table.load_config j = Except.ok c.into_table) ∧
    (decodeAppConfigFile j = none → ∀ c, decodeTableConfig j = some c →
      Table.load_config j = Except.ok c.into_table) ∧
    (decodeAppConfigFile j = none → decodeTableConfig j = none →
      ∃ e, Table.load_config j = Except.error e) := by
  refine ⟨?_, ?_, ?_⟩
  · intro c hc
    rw [Table.load_config, hc]
  · intro hn c hc
    rw [Table.load_config, hn, hc]
  · intro hn1 hn2
    exact ⟨_, by rw [Table.load_config, hn1, hn2]⟩

/-- The spec's legacy-schema scenario: a bare 1×1 table document with one
active subject named Zoe. -/
def jZoe : Json :=
  Json.obj
    [("row_count", Json.num 1), ("column_count", Json.num 1),
      ("subjects", Json.arr
        [Json.obj
          [("x", Json.num 0), ("y", Json.num 0), ("kind", Json.str "active"),
            ("name", Json.str "Zoe")]])]

/-- Concrete instance of `load_config_schema_fallback`: the bare legacy
document `jZoe` fails the wrapped schema, decodes under the bare schema,
and loads as the 1×1 grid with `Occupied("Zoe")` at `(0,0)`. -/
theorem load_config_schema_fallback_witness :
    Table.load_config jZoe
      = Except.ok (Table.new 1 1 [(⟨0, 0⟩, Subject.occupied "Zoe")]) := by
  have h := (load_config_schema_fallback jZoe).2.1 (by decide)
    ⟨1, 1, [⟨0, 0, TableConfigCellKind.active, some "Zoe"⟩]⟩ (by decide)
  refine h.trans (congrArg Except.ok ?_)
  decide

theorem decodeKind_encodeKind (k : TableConfigCellKind) :
    decodeKind (.str (encodeKind k)) = some k := by
  cases k <;> rfl

theorem decodeName_encodeName (nm : Option String) :
    decodeName (some (encodeName nm)) = some nm := by
  cases nm <;> rfl

theorem decodeU32_encode (x : Nat) (hx : x < U32M) :
    decodeU32 (Json.num (Int.ofNat x)) = some x := by
  simp only [U32M] at hx
  have hc : (0 : Int) ≤ Int.ofNat x ∧ Int.ofNat x < (4294967296 : Int) :=
    ⟨Int.ofNat_nonneg x, Int.ofNat_lt.mpr hx⟩
  rw [show decodeU32 (Json.num (Int.ofNat x))
      = if 0 ≤ Int.ofNat x ∧ Int.ofNat x < (4294967296 : Int)
        then some (Int.ofNat x).toNat else none from rfl,
    if_pos hc]
  rfl

theorem decodeSubject_encodeSubject (s : TableConfigSubject) (hx : s.x < U32M)
    (hy : s.y < U32M) : decodeSubject (encodeSubject s) = some s := by
  obtain ⟨x, y, kind, name⟩ := s
  have hDx := decodeU32_encode x hx
  have hDy := decodeU32_encode y hy
  rw [show encodeSubject ⟨x, y, kind, name⟩
      = Json.obj [("x", Json.num (Int.ofNat x)), ("y", Json.num (Int.ofNat y)),
        ("kind", Json.str (encodeKind kind)), ("name", encodeName name)] from rfl]
  rw [decodeSubject]
  rw [show getField [("x", Json.num (Int.ofNat x)), ("y", Json.num (Int.ofNat y)),
        ("kind", Json.str (encodeKind kind)), ("name", encodeName name)] "x"
      = some (Json.num (Int.ofNat x)) from rfl, Option.some_bind]
  rw [hDx, Option.some_bind]
  rw [show getField [("x", Json.num (Int.ofNat x)), ("y", Json.num (Int.ofNat y)),
        ("kind", Json.str (encodeKind kind)), ("name", encodeName name)] "y"
      = some (Json.num (Int.ofNat y)) from rfl, Option.some_bind]
  rw [hDy, Option.some_bind]
  rw [show getField [("x", Json.num (Int.ofNat x)), ("y", Json.num (Int.ofNat y)),
        ("kind", Json.str (encodeKind kind)), ("name", encodeName name)] "kind"
      = some (Json.str (encodeKind kind)) from rfl, Option.some_bind]
  rw [decodeKind_encodeKind, Option.some_bind]
  rw [show getField [("x", Json.num (Int.ofNat x)), ("y", Json.num (Int.ofNat y)),
        ("kind", Json.str (encodeKind kind)), ("name", encodeName name)] "name"
      = some (encodeName name) from rfl]
  rw [decodeName_encodeName, Option.some_bind]

theorem decodeSubjects_map_encode (L : List TableConfigSubject)
    (h : ∀ s ∈ L, s.x < U32M ∧ s.y < U32M) :
    decodeSubjects (L.map encodeSubject) = some L := by
  induction L with
  | nil => rfl
  | cons a rest ih =>
    have ha := h a (List.mem_cons_self a rest)
    have hrest := ih fun s hs => h s (List.mem_cons_of_mem _ hs)
    rw [List.map_cons, decodeSubjects]
    rw [decodeSubject_encodeSubject a ha.1 ha.2, Option.some_bind]
    rw [hrest, Option.some_bind]

theorem decodeTableConfig_encode (c : TableConfig) (hr : c.row_count < U32M)
    (hcl : c.column_count < U32M)
    (hs : ∀ s ∈ c.subjects, s.x < U32M ∧ s.y < U32M) :
    decodeTableConfig (encodeTableConfig c) = some c := by
  obtain ⟨r, cc, subs⟩ := c
  have hDr := decodeU32_encode r hr
  have hDc := decodeU32_encode cc hcl
  rw [show encodeTableConfig ⟨r, cc, subs⟩
      = Json.obj [("row_count", Json.num (Int.ofNat r)),
        ("column_count", Json.num (Int.ofNat cc)),
        ("subjects", Json.arr (subs.map encodeSubject))] from rfl]
  rw [decodeTableConfig]
  rw [show getField [("row_count", Json.num (Int.ofNat r)),
        ("column_count", Json.num (Int.ofNat cc)),
        ("subjects", Json.arr (subs.map encodeSubject))] "row_count"
      = some (Json.num (Int.ofNat r)) from rfl, Option.some_bind]
  rw [hDr, Option.some_bind]
  rw [show getField [("row_count", Json.num (Int.ofNat r)),
        ("column_count", Json.num (Int.ofNat cc)),
        ("subjects", Json.arr (subs.map encodeSubject))] "column_count"
      = some (Json.num (Int.ofNat cc)) from rfl, Option.some_bind]
  rw [hDc, Option.some_bind]
  rw [show decodeSubjectsField (getField [("row_count", Json.num (Int.ofNat r)),
        ("column_count", Json.num (Int.ofNat cc)),
        ("subjects", Json.arr (subs.map encodeSubject))] "subjects")
      = decodeSubjects (subs.map encodeSubject) from rfl]
  rw [decodeSubjects_map_encode subs hs, Option.some_bind]

theorem from_subject_x (p : Position) (v : Subject) :
    (TableConfigSubject.from_subject p v).x = p.x := by
  cases v <;> rfl

theorem from_subject_y (p : Position) (v : Subject) :
    (TableConfigSubject.from_subject p v).y = p.y := by
  cases v <;> rfl

theorem from_table_subject_bounds (t : Table) (hw : t.WF) :
    ∀ s ∈ (TableConfig.from_table t).subjects, s.x < U32M ∧ s.y < U32M := by
  intro s hs
  rw [TableConfig.from_table] at hs
  simp only [List.mem_filterMap] at hs
  obtain ⟨p, hp, hps⟩ := hs
  rw [Option.map_eq_some'] at hps
  obtain ⟨v, _, rfl⟩ := hps
  rw [from_subject_x, from_subject_y]
  have hb := (mem_iter_positions t p).mp hp
  exact ⟨lt_trans hb.1 hw.2.2.2, lt_trans hb.2 hw.2.2.1⟩

theorem decodeApp_write_config (t : Table) (hw : t.WF) :
    decodeAppConfigFile t.write_config = some (TableConfig.from_table t) := by
  rw [Table.write_config]
  rw [show decodeAppConfigFile
      (Json.obj [("default_table", encodeTableConfig (TableConfig.from_table t))])
    = decodeTableConfig (encodeTableConfig (TableConfig.from_table t)) from rfl]
  exact decodeTableConfig_encode _ hw.2.2.1 hw.2.2.2 (from_table_subject_bounds t hw)

theorem into_from_subject (p : Position) (v : Subject) :
    TableConfigSubject.into_subject (TableConfigSubject.from_subject p v) = (p, v) := by
  cases v <;> rfl

theorem map_into_from_table (t : Table) :
    (TableConfig.from_table t).subjects.map TableConfigSubject.into_subject
      = t.iter_positions.filterMap
        (fun p => (alookup t.subjects p).map (fun v => (p, v))) := by
  rw [TableConfig.from_table, List.map_filterMap]
  congr 1
  funext p
  cases h : alookup t.subjects p with
  | none => rfl
  | some v => simp [h, into_from_subject]

theorem keys_graph_sublist (ps : List Position) (g : Position → Option Subject) :
    ((ps.filterMap (fun p => (g p).map (fun v => (p, v)))).map Prod.fst).Sublist ps := by
  induction ps with
  | nil => simp
  | cons p rest ih =>
    rw [List.filterMap_cons]
    cases h : (g p).map (fun v => (p, v)) with
    | none => exact ih.cons p
    | some e =>
      rw [Option.map_eq_some'] at h
      obtain ⟨v, _, rfl⟩ := h
      simpa using ih.cons₂ p

theorem alookup_filterMap_graph (g : Position → Option Subject) (q : Position) :
    ∀ ps : List Position, ps.Nodup →
      alookup (ps.filterMap (fun p => (g p).map (fun v => (p, v)))) q
        = if q ∈ ps then g q else none := by
  intro ps
  induction ps with
  | nil =>
    intro _
    simp [alookup]
  | cons p rest ih =>
    intro hps
    have hp : p ∉ rest := (List.nodup_cons.mp hps).1
    have hih := ih (List.nodup_cons.mp hps).2
    rw [List.filterMap_cons]
    by_cases hq : q = p
    · subst hq
      cases hg : (g q).map (fun v => (q, v)) with
      | none =>
        rw [Option.map_eq_none'] at hg
        rw [hih, if_neg hp, if_pos (List.mem_cons_self q rest), hg]
      | some e =>
        rw [Option.map_eq_some'] at hg
        obtain ⟨v, hv, rfl⟩ := hg
        rw [alookup, if_pos rfl, if_pos (List.mem_cons_self q rest), hv]
    · cases hg : (g p).map (fun v => (p, v)) with
      | none =>
        rw [hih]
        by_cases hm : q ∈ rest
        · rw [if_pos hm, if_pos (List.mem_cons_of_mem _ hm)]
        · rw [if_neg hm, if_neg (by
            intro hc
            rcases List.mem_cons.mp hc with hc | hc
            · exact hq hc
            · exact hm hc)]
      | some e =>
        rw [Option.map_eq_some'] at hg
        obtain ⟨v, hv, rfl⟩ := hg
        rw [alookup, if_neg hq, hih]
        by_cases hm : q ∈ rest
        · rw [if_pos hm, if_pos (List.mem_cons_of_mem _ hm)]
        · rw [if_neg hm, if_neg (by
            intro hc
            rcases List.mem_cons.mp hc with hc | hc
            · exact hq hc
            · exact hm hc)]

theorem alookup_new_fold (r c : Nat) (q : Position) :
    ∀ l acc : List (Position × Subject), KeysNodup l →
      (∀ e ∈ l, e.1.x < c ∧ e.1.y < r) →
      alookup (l.foldl
        (fun m e => if e.1.x < c ∧ e.1.y < r then ainsert m e.1 e.2 else m) acc) q
        = match alookup l q with
          | some v => some v
          | none => alookup acc q := by
  intro l
  induction l with
  | nil =>
    intro acc _ _
    simp [alookup]
  | cons a rest ih =>
    intro acc hn hb
    obtain ⟨k, v⟩ := a
    rw [List.foldl_cons, if_pos (hb (k, v) (List.mem_cons_self _ _))]
    rw [ih (ainsert acc k v) (List.nodup_cons.mp hn).2
      (fun e he => hb e (List.mem_cons_of_mem _ he))]
    by_cases hq : q = k
    · subst hq
      have hrest : alookup rest q = none :=
        (alookup_eq_none_iff _ _).mpr (List.nodup_cons.mp hn).1
      rw [hrest]
      rw [show alookup ((q, v) :: rest) q = some v from by rw [alookup, if_pos rfl]]
      show alookup (ainsert acc q v) q = some v
      rw [alookup_ainsert, if_pos rfl]
    · rw [show alookup ((k, v) :: rest) q = alookup rest q from by
        rw [alookup, if_neg hq]]
      cases hr : alookup rest q with
      | some w => rfl
      | none =>
        show alookup (ainsert acc k v) q = alookup acc q
        rw [alookup_ainsert, if_neg hq]

theorem alookup_table_new (r c : Nat) (l : List (Position × Subject))
    (hn : KeysNodup l) (hb : ∀ e ∈ l, e.1.x < c ∧ e.1.y < r) (q : Position) :
    alookup (Table.new r c l).subjects q = alookup l q := by
  rw [show (Table.new r c l).subjects = l.foldl
      (fun m e => if e.1.x < c ∧ e.1.y < r then ainsert m e.1 e.2 else m) [] from rfl]
  rw [alookup_new_fold r c q l [] hn hb]
  cases h : alookup l q with
  | some v => rfl
  | none => rfl

/-- C4: writing any well-formed grid with `write_config` and loading the
emitted document back with `load_config` succeeds (through the wrapped
schema) and reconstructs a grid with the same `row_count` and
`column_count` and the *same* explicit entry map — the round trip is in
fact exact, which in particular means it is the identity modulo
normalization of blank names to absence. -/
theorem write_load_config_roundtrip (t : Table) (hw : t.WF) :
    Table.load_config t.write_config
      = Except.ok ((TableConfig.from_table t).into_table) ∧
    ((TableConfig.from_table t).into_table).row_count = t.row_count ∧
    ((TableConfig.from_table t).into_table).column_count = t.column_count ∧
    ∀ p, alookup ((TableConfig.from_table t).into_table).subjects p
      = alookup t.subjects p := by
  refine ⟨?_, rfl, rfl, ?_⟩
  · rw [Table.load_config, decodeApp_write_config t hw]
  · intro p
    rw [TableConfig.into_table, map_into_from_table t]
    rw [alookup_table_new _ _ _ ?_ ?_ p]
    · rw [alookup_filterMap_graph (alookup t.subjects) p t.iter_positions
        (nodup_iter_positions t)]
      by_cases hm : p ∈ t.iter_positions
      · rw [if_pos hm]
      · rw [if_neg hm]
        cases hl : alookup t.subjects p with
        | none => rfl
        | some v =>
          exfalso
          refine hm ?_
          rw [mem_iter_positions]
          exact hw.2.1 (p, v) (mem_of_alookup_eq_some hl)
    · exact (keys_graph_sublist t.iter_positions (alookup t.subjects)).nodup
        (nodup_iter_positions t)
    · intro e he
      rw [List.mem_filterMap] at he
      obtain ⟨a, ha, hae⟩ := he
      rw [Option.map_eq_some'] at hae
      obtain ⟨v, _, rfl⟩ := hae
      exact (mem_iter_positions t a).mp ha

/-- Concrete instance of `write_load_config_roundtrip` on a 2×2 grid with
one occupied and one blocked cell: the loaded grid has the same dimensions
and the same entries. -/
theorem write_load_config_roundtrip_witness :
    Table.load_config (Table.new 2 2 [(⟨0, 0⟩, Subject.occupied "Amy"),
        (⟨1, 0⟩, Subject.block "B1")]).write_config
      = Except.ok ((TableConfig.from_table (Table.new 2 2
          [(⟨0, 0⟩, Subject.occupied "Amy"),
            (⟨1, 0⟩, Subject.block "B1")])).into_table) ∧
    alookup ((TableConfig.from_table (Table.new 2 2
        [(⟨0, 0⟩, Subject.occupied "Amy"),
          (⟨1, 0⟩, Subject.block "B1")])).into_table).subjects ⟨0, 0⟩
      = some (Subject.occupied "Amy") := by
  have h := write_load_config_roundtrip
    (Table.new 2 2 [(⟨0, 0⟩, Subject.occupied "Amy"), (⟨1, 0⟩, Subject.block "B1")])
    (wf_new 2 2 _ (by decide) (by decide))
  exact ⟨h.1, (h.2.2.2 ⟨0, 0⟩).trans (by decide)⟩

end Checkin
